import Mathlib

/-!
Verification of the mukoko-news processing pipeline (Python) against its
natural-language specification.  Each Python service that the claims touch is
shallowly embedded as executable Lean definitions; machine floats are
modelled by `ℚ`, Python dictionaries by structures with `Option` fields,
ISO timestamps by rational instants (minutes), and external dependencies
(BeautifulSoup, textstat, the LLM gateway, the document store) by explicit
function parameters.  Theorems about the embeddings settle the claims.
-/

namespace Mukoko

/-- Python `round(x, 2)`: modelled as rounding `x·100` to the nearest integer
(Python uses banker's rounding at exact half-cents, which no value in this
development hits) and dividing back by 100. -/
def round2 (q : ℚ) : ℚ := (round (q * 100) : ℤ) / 100

theorem round2_nonneg {q : ℚ} (h : 0 ≤ q) : 0 ≤ round2 q := by
  unfold round2
  have h1 : (0 : ℤ) ≤ round (q * 100) := by
    rw [round_eq]
    exact Int.le_floor.mpr (by push_cast; linarith)
  positivity

theorem round2_le_one {q : ℚ} (h : q ≤ 1) : round2 q ≤ 1 := by
  unfold round2
  have h1 : round (q * 100) ≤ (100 : ℤ) := by
    rw [round_eq]
    have h2 : ((⌊q * 100 + 1/2⌋ : ℤ) : ℚ) ≤ q * 100 + 1/2 := Int.floor_le _
    have h3 : ((⌊q * 100 + 1/2⌋ : ℤ) : ℚ) < 101 := by linarith
    have h4 : ⌊q * 100 + 1/2⌋ < (101 : ℤ) := by exact_mod_cast h3
    omega
  rw [div_le_one (by norm_num)]
  exact_mod_cast h1

/-- A rational with denominator dividing 100 (every output of `round2`). -/
def IsCenti (q : ℚ) : Prop := ∃ m : ℤ, q = m / 100

theorem round2_isCenti (q : ℚ) : IsCenti (round2 q) := ⟨round (q * 100), rfl⟩

theorem round2_centi_sub_int {q : ℚ} (h : IsCenti q) (k : ℤ) :
    round2 (q + k) = q + k := by
  obtain ⟨m, rfl⟩ := h
  unfold round2
  have h1 : ((m : ℚ) / 100 + k) * 100 = ((m + k * 100 : ℤ) : ℚ) := by
    push_cast
    ring
  rw [h1, round_intCast]
  push_cast
  ring

end Mukoko

namespace Mukoko.SourceHealth

/-!
Embedding of `src/processing/src/services/source_health.py`.
Timestamps (`last_successful_fetch`, `last_fetch_at`) are modelled as
already-parsed instants measured in minutes (`ℚ`), absent values as `none`;
`should_fetch` additionally takes the current instant `now` explicitly.
-/

/-- A source record, with the fields `should_fetch` reads. -/
structure Source where
  consecutive_failures : Nat
  last_successful_fetch : Option ℚ := none
  last_fetch_at : Option ℚ := none
deriving DecidableEq, Repr

/-- Translation of `classify_health` (thresholds healthy 0, degraded 1,
failing 4, critical 8). -/
def classify_health (consecutive_failures : Nat) : String :=
  if consecutive_failures ≥ 8 then "critical"
  else if consecutive_failures ≥ 4 then "failing"
  else if consecutive_failures ≥ 1 then "degraded"
  else "healthy"

/-- Translation of the `FETCH_INTERVALS` dict: `dict.get` yields `none` both
for the `"critical"` entry (stored as `None`) and for unknown keys. -/
def FETCH_INTERVALS (health : String) : Option ℚ :=
  if health = "healthy" then some 15
  else if health = "degraded" then some 30
  else if health = "failing" then some 60
  else none

/-- Translation of `should_fetch`: critical sources are skipped, sources with
no prior timestamp are always fetched, otherwise the source is due when
`minutes_since >= interval` (the code compares with `>=`).  The Python
parse-failure branch (`except` returning `True`) cannot arise here because
timestamps are modelled as already-parsed instants. -/
def should_fetch (source : Source) (now : ℚ) : Bool :=
  match FETCH_INTERVALS (classify_health source.consecutive_failures) with
  | none => false
  | some interval =>
    match source.last_successful_fetch.orElse (fun _ => source.last_fetch_at) with
    | none => true
    | some last => decide (interval ≤ now - last)

end Mukoko.SourceHealth

namespace Mukoko

open SourceHealth

/-- The classifier only ever returns one of the four status strings. -/
theorem classify_health_cases (n : Nat) :
    classify_health n = "critical" ∨ classify_health n = "failing" ∨
    classify_health n = "degraded" ∨ classify_health n = "healthy" := by
  unfold classify_health
  split_ifs <;> simp

/-- C4, counterexample.  The claim asserts (i) `should_fetch` is always true
when the source has neither timestamp, yet a critical source (10 failures)
with no timestamps is skipped because the critical check runs first; and
(ii) otherwise `should_fetch` is true exactly when the time since the
preferred timestamp strictly exceeds the interval, yet a healthy source last
fetched exactly 15 minutes ago (not strictly more) is fetched, because the
code compares with `>=`. -/
theorem C4_counterexample :
    should_fetch ⟨10, none, none⟩ 1000 = false ∧
    should_fetch ⟨0, some 0, none⟩ 15 = true := by
  constructor
  · rfl
  · have h : should_fetch ⟨0, some 0, none⟩ 15 = decide ((15:ℚ) ≤ 15 - 0) := rfl
    rw [h, decide_eq_true_eq]
    norm_num

/-- C4, amended.  `should_fetch` is never true for a critical source; for a
non-critical source it is true when both timestamps are missing, and
otherwise true exactly when the time since the preferred timestamp
(`last_successful_fetch`, falling back to `last_fetch_at`) is at least the
interval assigned to the health status. -/
theorem C4_should_fetch :
    ∀ (s : Source) (now : ℚ),
    (classify_health s.consecutive_failures = "critical" → should_fetch s now = false) ∧
    (classify_health s.consecutive_failures ≠ "critical" →
      s.last_successful_fetch = none → s.last_fetch_at = none →
      should_fetch s now = true) ∧
    (∀ interval last,
      FETCH_INTERVALS (classify_health s.consecutive_failures) = some interval →
      s.last_successful_fetch.orElse (fun _ => s.last_fetch_at) = some last →
      (should_fetch s now = true ↔ interval ≤ now - last)) := by
  intro s now
  refine ⟨?_, ?_, ?_⟩
  · intro hcrit
    unfold should_fetch
    rw [hcrit]
    rfl
  · intro hne h1 h2
    unfold should_fetch
    cases hI : FETCH_INTERVALS (classify_health s.consecutive_failures) with
    | none =>
      exfalso
      rcases classify_health_cases s.consecutive_failures with h | h | h | h
      · exact hne h
      · rw [h, show FETCH_INTERVALS "failing" = some 60 from rfl] at hI
        exact Option.noConfusion hI
      · rw [h, show FETCH_INTERVALS "degraded" = some 30 from rfl] at hI
        exact Option.noConfusion hI
      · rw [h, show FETCH_INTERVALS "healthy" = some 15 from rfl] at hI
        exact Option.noConfusion hI
    | some i =>
      rw [h1, h2]
      rfl
  · intro interval last hi hlast
    unfold should_fetch
    rw [hi, hlast]
    simp

/-- C4, witness for the amended theorem at concrete inputs: a healthy source
with no timestamps is fetched. -/
theorem C4_witness : should_fetch ⟨0, none, none⟩ 0 = true :=
  (C4_should_fetch ⟨0, none, none⟩ 0).2.1 (by decide) rfl rfl

end Mukoko

namespace Mukoko.Text

/-!
Shared embedding of the Python text primitives the services use.  Python
`str` is modelled through its list of characters; the regex classes `\w` and
`\s` are modelled for the ASCII plane (Python compiles them with full
Unicode semantics, so theorems that depend on `\w` carry an ASCII-input
hypothesis marking the faithful domain).
-/

/-- ASCII fragment of the regex class `\w`: letters, digits, underscore. -/
def isWordAscii (c : Char) : Bool :=
  c.isLower || c.isUpper || c.isDigit || c == '_'

/-- ASCII fragment of the regex class `\s` (and of Python `str.split()` /
`str.strip()` whitespace). -/
def isSpacePy (c : Char) : Bool :=
  c == ' ' || c == '\t' || c == '\n' || c == '\r' || c == '\x0b' || c == '\x0c'

/-- Replaces every maximal run of characters satisfying `p` by the single
character `rep`; with `p` a whitespace class and `rep` a space or hyphen this
is Python `re.sub(r"\s+", rep, s)`, and with `p = (· == rep)` it is
`re.sub(rep + "{2,}", rep, s)` (runs of length one are left as they are by
both). `prevInRun` records whether the previous character was in a run. -/
def collapseRuns (p : Char → Bool) (rep : Char) : Bool → List Char → List Char
  | _, [] => []
  | prevInRun, c :: rest =>
    if p c then
      if prevInRun then collapseRuns p rep true rest
      else rep :: collapseRuns p rep true rest
    else c :: collapseRuns p rep false rest

theorem collapseRuns_mem {p : Char → Bool} {rep : Char} :
    ∀ {b : Bool} {l : List Char} {c : Char}, c ∈ collapseRuns p rep b l →
      c = rep ∨ (c ∈ l ∧ p c = false) := by
  intro b l
  induction l generalizing b with
  | nil => intro c h; simp [collapseRuns] at h
  | cons d rest ih =>
    intro c h
    unfold collapseRuns at h
    by_cases hd : p d = true
    · rw [if_pos hd] at h
      cases b with
      | true =>
        rw [if_pos rfl] at h
        rcases ih h with h1 | h1
        · exact Or.inl h1
        · exact Or.inr ⟨List.mem_cons_of_mem _ h1.1, h1.2⟩
      | false =>
        rw [if_neg Bool.false_ne_true] at h
        rcases List.mem_cons.mp h with h1 | h1
        · exact Or.inl h1
        · rcases ih h1 with h2 | h2
          · exact Or.inl h2
          · exact Or.inr ⟨List.mem_cons_of_mem _ h2.1, h2.2⟩
    · rw [if_neg hd] at h
      rcases List.mem_cons.mp h with h1 | h1
      · subst h1
        exact Or.inr ⟨List.mem_cons_self _ _, by simpa using hd⟩
      · rcases ih h1 with h2 | h2
        · exact Or.inl h2
        · exact Or.inr ⟨List.mem_cons_of_mem _ h2.1, h2.2⟩

/-- Python `s.strip(ch)` of a single strip character: drop from the front. -/
def lstripChar (ch : Char) (l : List Char) : List Char := l.dropWhile (· == ch)

/-- Python `s.strip(ch)` of a single strip character: drop from the back. -/
def rstripChar (ch : Char) (l : List Char) : List Char :=
  (l.reverse.dropWhile (· == ch)).reverse

theorem dropWhile_head_not {p : Char → Bool} :
    ∀ {l : List Char} {c : Char}, (l.dropWhile p).head? = some c → p c = false := by
  intro l
  induction l with
  | nil => intro c h; simp [List.dropWhile] at h
  | cons d rest ih =>
    intro c h
    rw [List.dropWhile_cons] at h
    by_cases hd : p d = true
    · rw [if_pos hd] at h
      exact ih h
    · rw [if_neg hd] at h
      simp only [List.head?_cons, Option.some.injEq] at h
      subst h
      simpa using hd

theorem rstripChar_prefixOf (ch : Char) (l : List Char) : rstripChar ch l <+: l := by
  have h1 : l.reverse.dropWhile (· == ch) <:+ l.reverse := List.dropWhile_suffix _
  have h2 : (rstripChar ch l).reverse <:+ l.reverse := by
    unfold rstripChar
    simpa using h1
  exact (List.reverse_suffix).mp h2

theorem prefix_head? {l m : List Char} (h : m <+: l) :
    m.head? = none ∨ m.head? = l.head? := by
  obtain ⟨t, rfl⟩ := h
  cases m with
  | nil => exact Or.inl rfl
  | cons c rest => exact Or.inr rfl

end Mukoko.Text

namespace Mukoko.RssFeed

open Mukoko.Text

/-!
Embedding of `_generate_slug` in `src/processing/src/services/rss_parser.py`:
lowercase the title, delete characters outside `\w`, `\s`, `-`, replace
whitespace runs by `-`, squeeze hyphen runs, strip outer hyphens, clamp to
80 characters.
-/

/-- The slug before the final 80-character clamp: `title.lower()`, then
`re.sub(r"[^\w\s-]", "")`, then `re.sub(r"[\s]+", "-")`, then
`re.sub(r"-{2,}", "-")`, then `.strip("-")`. -/
def slugCore (title : List Char) : List Char :=
  rstripChar '-' (lstripChar '-'
    (collapseRuns (· == '-') '-' false
      (collapseRuns isSpacePy '-' false
        ((title.map Char.toLower).filter
          (fun c => isWordAscii c || isSpacePy c || c == '-')))))

/-- Translation of `_generate_slug`. -/
def generate_slug (title : String) : String :=
  String.mk ((slugCore title.data).take 80)

end Mukoko.RssFeed

namespace Mukoko

open Mukoko.Text Mukoko.RssFeed

/-- Packing a valid codepoint and unpacking it is the identity. -/
theorem toNat_ofNat_valid {n : Nat} (h : n.isValidChar) : (Char.ofNat n).toNat = n := by
  unfold Char.ofNat
  rw [dif_pos h]
  rfl

/-- Lowercasing never produces an ASCII uppercase letter. -/
theorem toLower_isUpper_false (c : Char) : (Char.toLower c).isUpper = false := by
  unfold Char.toLower Char.isUpper
  by_cases h : 65 ≤ c.toNat ∧ c.toNat ≤ 90
  · rw [if_pos h]
    have hv : (c.toNat + 32).isValidChar := Or.inl (by omega)
    have ht : (Char.ofNat (c.toNat + 32)).toNat = c.toNat + 32 := toNat_ofNat_valid hv
    have h90 : ¬ ((Char.ofNat (c.toNat + 32)).val ≤ (90 : UInt32)) := by
      rw [UInt32.le_def]
      intro hcon
      have h91 : (Char.ofNat (c.toNat + 32)).val.toNat ≤ 90 := by exact_mod_cast hcon
      rw [show (Char.ofNat (c.toNat + 32)).val.toNat
          = (Char.ofNat (c.toNat + 32)).toNat from rfl, ht] at h91
      omega
    simp [h90]
  · rw [if_neg h]
    rcases Decidable.not_and_iff_or_not.mp h with h1 | h1
    · have h2 : ¬ ((65 : UInt32) ≤ c.val) := by
        rw [UInt32.le_def]
        intro hcon
        exact h1 (by exact_mod_cast hcon)
      simp [h2]
    · have h2 : ¬ (c.val ≤ (90 : UInt32)) := by
        rw [UInt32.le_def]
        intro hcon
        exact h1 (by exact_mod_cast hcon)
      simp [h2]

/-- C3, counterexample.  For the 81-character title `"_aaa…a b"` (an
underscore, 78 letters `a`, a space, and `b`), the generated slug contains an
underscore — `\w` keeps `_`, so the slug does not match `^[a-z0-9-]*$` — and,
because the 80-character clamp is applied after `strip("-")`, the slug ends
in a hyphen. -/
theorem C3_counterexample :
    ((generate_slug (String.mk ('_' :: (List.replicate 78 'a' ++ [' ', 'b'])))).data.contains
        '_' = true) ∧
    ((generate_slug (String.mk ('_' :: (List.replicate 78 'a' ++ [' ', 'b'])))).data.getLast?
        = some '-') := by decide

/-- C3, amended.  For every ASCII title, the generated slug has at most 80
characters, all of which are lowercase letters, digits, underscores or
hyphens (underscore is allowed in addition to the claimed class, since the
regex `\w` keeps it), it never starts with a hyphen, and it ends with a
hyphen only when the pre-clamp slug exceeds 80 characters (the clamp runs
after `strip("-")`). -/
theorem C3_slug (title : String) (h : ∀ c ∈ title.data, c.toNat < 128) :
    (generate_slug title).length ≤ 80 ∧
    (∀ c ∈ (generate_slug title).data,
      c.isLower = true ∨ c.isDigit = true ∨ c = '_' ∨ c = '-') ∧
    (generate_slug title).data.head? ≠ some '-' ∧
    ((slugCore title.data).length ≤ 80 →
      (generate_slug title).data.getLast? ≠ some '-') := by
  refine ⟨?_, ?_, ?_, ?_⟩
  · show ((slugCore title.data).take 80).length ≤ 80
    simpa using List.length_take_le 80 (slugCore title.data)
  · intro c hc
    have h1 : c ∈ slugCore title.data := List.take_subset _ _ hc
    unfold slugCore at h1
    have h2 := (rstripChar_prefixOf '-' _).sublist.subset h1
    have h3 := (List.dropWhile_sublist _).subset h2
    rcases collapseRuns_mem h3 with rfl | ⟨h4, _⟩
    · exact Or.inr (Or.inr (Or.inr rfl))
    rcases collapseRuns_mem h4 with rfl | ⟨h5, hsp⟩
    · exact Or.inr (Or.inr (Or.inr rfl))
    rcases List.mem_filter.mp h5 with ⟨h6, hpred⟩
    obtain ⟨d, hd, rfl⟩ := List.mem_map.mp h6
    have hup := toLower_isUpper_false d
    simp only [Bool.or_eq_true] at hpred
    rcases hpred with (hx | hx) | hx
    · simp only [isWordAscii, Bool.or_eq_true, beq_iff_eq] at hx
      rcases hx with ((hx | hx) | hx) | hx
      · exact Or.inl hx
      · rw [hup] at hx
        exact absurd hx (by simp)
      · exact Or.inr (Or.inl hx)
      · exact Or.inr (Or.inr (Or.inl hx))
    · rw [hsp] at hx
      exact absurd hx (by simp)
    · exact Or.inr (Or.inr (Or.inr (by simpa using hx)))
  · intro hcon
    have hp1 : (generate_slug title).data <+: rstripChar '-' (lstripChar '-'
        (collapseRuns (· == '-') '-' false
          (collapseRuns isSpacePy '-' false
            ((title.data.map Char.toLower).filter
              (fun c => isWordAscii c || isSpacePy c || c == '-'))))) := by
      show ((slugCore title.data).take 80) <+: _
      unfold slugCore
      exact List.take_prefix _ _
    have hp2 := rstripChar_prefixOf '-' (lstripChar '-'
        (collapseRuns (· == '-') '-' false
          (collapseRuns isSpacePy '-' false
            ((title.data.map Char.toLower).filter
              (fun c => isWordAscii c || isSpacePy c || c == '-')))))
    rcases prefix_head? hp1 with hh | hh
    · rw [hh] at hcon
      exact Option.noConfusion hcon
    rcases prefix_head? hp2 with hh2 | hh2
    · rw [hcon] at hh
      rw [hh2] at hh
      exact Option.noConfusion hh
    · rw [hcon] at hh
      rw [hh2] at hh
      have := dropWhile_head_not hh.symm
      simp at this
  · intro hlen hcon
    have htake : (slugCore title.data).take 80 = slugCore title.data :=
      List.take_of_length_le hlen
    have hdata : (generate_slug title).data = slugCore title.data := by
      show (slugCore title.data).take 80 = _
      exact htake
    rw [hdata] at hcon
    unfold slugCore rstripChar at hcon
    rw [List.getLast?_reverse] at hcon
    have := dropWhile_head_not hcon
    simp at this

/-- C3, witness for the amended theorem at the concrete ASCII title
`"Ab c"`. -/
theorem C3_witness :
    (generate_slug (String.mk ['A', 'b', ' ', 'c'])).length ≤ 80 ∧
    (∀ c ∈ (generate_slug (String.mk ['A', 'b', ' ', 'c'])).data,
      c.isLower = true ∨ c.isDigit = true ∨ c = '_' ∨ c = '-') ∧
    (generate_slug (String.mk ['A', 'b', ' ', 'c'])).data.head? ≠ some '-' ∧
    ((slugCore (String.mk ['A', 'b', ' ', 'c']).data).length ≤ 80 →
      (generate_slug (String.mk ['A', 'b', ' ', 'c'])).data.getLast? ≠ some '-') :=
  C3_slug (String.mk ['A', 'b', ' ', 'c']) (by decide)

end Mukoko

namespace Mukoko.Text

/-- Python `str.split()` with no separator: split on whitespace runs,
discarding empty fields (`cur` accumulates the current word reversed). -/
def pysplitAux (cur : List Char) : List Char → List (List Char)
  | [] => if cur.isEmpty then [] else [cur.reverse]
  | c :: rest =>
    if isSpacePy c then
      if cur.isEmpty then pysplitAux [] rest
      else cur.reverse :: pysplitAux [] rest
    else pysplitAux (c :: cur) rest

/-- Python `s.split()`. -/
def pysplit (s : String) : List (List Char) := pysplitAux [] s.data

/-- Python `min(max(q, lo), hi)` for the unit interval. -/
def clamp01 (q : ℚ) : ℚ := min (max q 0) 1

theorem clamp01_nonneg (q : ℚ) : 0 ≤ clamp01 q :=
  le_min (le_max_right q 0) (by norm_num)

theorem clamp01_le_one (q : ℚ) : clamp01 q ≤ 1 := min_le_right _ 1

/-- Python `round(x, 1)`. -/
def round1 (q : ℚ) : ℚ := (round (q * 10) : ℤ) / 10

end Mukoko.Text

namespace Mukoko.Quality

open Mukoko.Text

/-!
Embedding of `src/processing/services/quality_scorer.py`.  The optional
`textstat` dependency (unavailable in the deployment runtime) is modelled as
an optional pure function returning `(flesch_reading_ease, flesch_kincaid_grade)`;
`HAS_TEXTSTAT` is its presence.  Floats are modelled as `ℚ`.
-/

/-- The four sub-scores returned under `"breakdown"`. -/
structure Breakdown where
  length_score : ℚ
  readability_score : ℚ
  title_score : ℚ
  structure_score : ℚ
deriving DecidableEq, Repr

/-- The record returned by `score_quality`. -/
structure QualityResult where
  quality_score : ℚ
  word_count : Nat
  reading_ease : Option ℚ
  grade_level : Option ℚ
  breakdown : Breakdown
deriving DecidableEq, Repr

/-- Translation of `_empty_breakdown`. -/
def empty_breakdown : Breakdown := ⟨0, 0, 0, 0⟩

/-- Python `w and w[0].isupper() and len(w) > 1` over a split word. -/
def isCapitalWord (w : List Char) : Bool :=
  match w with
  | [] => false
  | c :: _ => c.isUpper && decide (1 < w.length)

/-- Translation of `score_quality`. -/
def score_quality (textstat : Option (String → ℚ × ℚ)) (content title : String) :
    QualityResult :=
  if content.length < 100 then
    { quality_score := 3/10
      word_count := if content.data.isEmpty then 0 else (pysplit content).length
      reading_ease := none
      grade_level := none
      breakdown := empty_breakdown }
  else
    let word_count := (pysplit content).length
    let sentence_count :=
      content.data.count '.' + content.data.count '!' + content.data.count '?'
    let length_score := min ((word_count : ℚ) / 500) 1
    let ts_used := match textstat with
      | some f => if 30 < word_count then some (f content) else none
      | none => none
    let readability_score := match ts_used with
      | some edg => min (max edg.1 0 / 70) 1
      | none =>
        let avg_sentence_len := (word_count : ℚ) / (max sentence_count 1 : Nat)
        if 10 ≤ avg_sentence_len ∧ avg_sentence_len ≤ 30 then 8/10
        else if avg_sentence_len < 10 then 1/2
        else 2/5
    let title_words := if title.data.isEmpty then 0 else (pysplit title).length
    let title_score : ℚ :=
      if 5 ≤ title_words ∧ title_words ≤ 15 then 1
      else if 3 ≤ title_words ∧ title_words ≤ 20 then 7/10
      else 2/5
    let capital_words := ((pysplit content).take 200).countP isCapitalWord
    let structure_score :=
      min ((1:ℚ)/2 + (if 3 ≤ sentence_count then 1/10 else 0)
        + (if content.data.contains '"' || content.data.contains '“' then (1:ℚ)/10 else 0)
        + (if 2 ≤ content.data.count '\n' then 1/10 else 0)
        + (if 5 < capital_words then 1/10 else 0)) 1
    let quality_score := Mukoko.round2 (clamp01
      (length_score * (30/100) + readability_score * (30/100)
        + title_score * (15/100) + structure_score * (25/100)))
    { quality_score := quality_score
      word_count := word_count
      reading_ease := ts_used.map (fun edg => round1 edg.1)
      grade_level := ts_used.map (fun edg => round1 edg.2)
      breakdown :=
        { length_score := Mukoko.round2 length_score
          readability_score := Mukoko.round2 readability_score
          title_score := Mukoko.round2 title_score
          structure_score := Mukoko.round2 structure_score } }

end Mukoko.Quality

namespace Mukoko

open Mukoko.Text Mukoko.Quality

/-- C7, confirmed.  The quality scorer is a pure function of its inputs (the
embedding takes the optional textstat backend as an explicit parameter, and
the Python code reads no other ambient state), so two invocations on
identical inputs give identical results; the returned `quality_score` always
lies in `[0, 1]` because the weighted sum is clamped before the 2-decimal
rounding; and content shorter than 100 characters is returned with the fixed
score `0.3` and an all-zero breakdown. -/
theorem C7_quality_scorer (ts : Option (String → ℚ × ℚ)) (content title : String) :
    score_quality ts content title = score_quality ts content title ∧
    0 ≤ (score_quality ts content title).quality_score ∧
    (score_quality ts content title).quality_score ≤ 1 ∧
    (content.length < 100 →
      (score_quality ts content title).quality_score = 3/10 ∧
      (score_quality ts content title).breakdown = empty_breakdown ∧
      (score_quality ts content title).reading_ease = none ∧
      (score_quality ts content title).grade_level = none) := by
  refine ⟨rfl, ?_, ?_, ?_⟩
  · unfold score_quality
    split
    · norm_num
    · exact round2_nonneg (clamp01_nonneg _)
  · unfold score_quality
    split
    · norm_num
    · exact round2_le_one (clamp01_le_one _)
  · intro hshort
    unfold score_quality
    rw [if_pos hshort]
    exact ⟨rfl, rfl, rfl, rfl⟩

/-- C7, witness at concrete inputs: the empty content takes the fixed-score
branch. -/
theorem C7_witness :
    0 ≤ (score_quality none "" "t").quality_score ∧
    (score_quality none "" "t").quality_score = 3/10 :=
  ⟨(C7_quality_scorer none "" "t").2.1,
    ((C7_quality_scorer none "" "t").2.2.2 (by decide)).1⟩

end Mukoko

namespace Mukoko.Clustering

/-!
Embedding of `_build_clusters` in `src/processing/src/services/clustering.py`.
Both clustering strategies (semantic cosine and lexical Jaccard) call
`_build_clusters` with a similarity matrix, so the matrix is taken as an
arbitrary function `sim : Nat → Nat → ℚ`.  Article dicts are modelled with
the fields `_build_clusters` reads (`id`, `source`); `.get` of a missing key
is `none`.
-/

/-- An article as read by `_build_clusters`. -/
structure ClArticle where
  id : Option String
  source : Option String
deriving DecidableEq, Repr

/-- A produced cluster. -/
structure Cluster where
  id : String
  primary_article : ClArticle
  related_articles : List ClArticle
  article_count : Nat
deriving DecidableEq, Repr

/-- Value of `articles[k]` (all accesses are in bounds). -/
def artAt (articles : List ClArticle) (k : Nat) : ClArticle :=
  articles.getD k ⟨none, none⟩

/-- The inner `for j in range(i+1, len(articles))` loop: returns the related
index list (in order) and the updated `assigned` set.  A `j` is attached when
it is unassigned, from a different source than primary `i`, and
`sim i j >= threshold`; the loop breaks once `max_related` are attached. -/
def relatedLoop (articles : List ClArticle) (sim : Nat → Nat → ℚ) (threshold : ℚ)
    (max_related : Nat) (i : Nat) :
    List Nat → List Nat → List Nat → List Nat × List Nat
  | [], assigned, acc => (acc, assigned)
  | j :: js, assigned, acc =>
    if j ∈ assigned then
      relatedLoop articles sim threshold max_related i js assigned acc
    else if (artAt articles i).source = (artAt articles j).source then
      relatedLoop articles sim threshold max_related i js assigned acc
    else if threshold ≤ sim i j then
      if max_related ≤ (acc ++ [j]).length then (acc ++ [j], j :: assigned)
      else relatedLoop articles sim threshold max_related i js (j :: assigned) (acc ++ [j])
    else
      relatedLoop articles sim threshold max_related i js assigned acc

/-- The outer `for i in range(len(articles))` loop, breaking after
`max_clusters` clusters. -/
def clustersLoop (articles : List ClArticle) (sim : Nat → Nat → ℚ) (threshold : ℚ)
    (max_related max_clusters : Nat) :
    List Nat → List Nat → List Cluster → List Cluster
  | [], _, acc => acc
  | i :: is, assigned, acc =>
    if i ∈ assigned then
      clustersLoop articles sim threshold max_related max_clusters is assigned acc
    else
      let pr := relatedLoop articles sim threshold max_related i
        (List.range' (i + 1) (articles.length - (i + 1))) (i :: assigned) []
      let cluster : Cluster :=
        { id := "cluster-" ++ ((artAt articles i).id.getD (toString i))
          primary_article := artAt articles i
          related_articles := pr.1.map (artAt articles)
          article_count := 1 + pr.1.length }
      if max_clusters ≤ (acc ++ [cluster]).length then acc ++ [cluster]
      else clustersLoop articles sim threshold max_related max_clusters is pr.2 (acc ++ [cluster])

/-- Translation of `_build_clusters`. -/
def build_clusters (articles : List ClArticle) (sim : Nat → Nat → ℚ) (threshold : ℚ)
    (max_related max_clusters : Nat) : List Cluster :=
  clustersLoop articles sim threshold max_related max_clusters
    (List.range articles.length) [] []

theorem relatedLoop_source_ne (articles : List ClArticle) (sim : Nat → Nat → ℚ)
    (threshold : ℚ) (max_related : Nat) (i : Nat) :
    ∀ (js assigned acc : List Nat),
      (∀ j ∈ acc, (artAt articles j).source ≠ (artAt articles i).source) →
      ∀ j ∈ (relatedLoop articles sim threshold max_related i js assigned acc).1,
        (artAt articles j).source ≠ (artAt articles i).source := by
  intro js
  induction js with
  | nil => intro assigned acc hacc j hj; exact hacc j hj
  | cons j0 js ih =>
    intro assigned acc hacc j hj
    unfold relatedLoop at hj
    by_cases h1 : j0 ∈ assigned
    · rw [if_pos h1] at hj
      exact ih assigned acc hacc j hj
    rw [if_neg h1] at hj
    by_cases h2 : (artAt articles i).source = (artAt articles j0).source
    · rw [if_pos h2] at hj
      exact ih assigned acc hacc j hj
    rw [if_neg h2] at hj
    have hext : ∀ k ∈ acc ++ [j0],
        (artAt articles k).source ≠ (artAt articles i).source := by
      intro k hk
      rcases List.mem_append.mp hk with hk | hk
      · exact hacc k hk
      · rcases List.mem_singleton.mp hk with rfl
        exact fun he => h2 he.symm
    by_cases h3 : threshold ≤ sim i j0
    · rw [if_pos h3] at hj
      by_cases h4 : max_related ≤ (acc ++ [j0]).length
      · rw [if_pos h4] at hj
        exact hext j hj
      · rw [if_neg h4] at hj
        exact ih (j0 :: assigned) (acc ++ [j0]) hext j hj
    · rw [if_neg h3] at hj
      exact ih assigned acc hacc j hj

theorem clustersLoop_source_ne (articles : List ClArticle) (sim : Nat → Nat → ℚ)
    (threshold : ℚ) (max_related max_clusters : Nat) :
    ∀ (is assigned : List Nat) (acc : List Cluster),
      (∀ c ∈ acc, ∀ r ∈ c.related_articles, r.source ≠ c.primary_article.source) →
      ∀ c ∈ clustersLoop articles sim threshold max_related max_clusters is assigned acc,
        ∀ r ∈ c.related_articles, r.source ≠ c.primary_article.source := by
  intro is
  induction is with
  | nil => intro assigned acc hacc c hc; exact hacc c hc
  | cons i0 is ih =>
    intro assigned acc hacc c hc
    unfold clustersLoop at hc
    by_cases h1 : i0 ∈ assigned
    · rw [if_pos h1] at hc
      exact ih assigned acc hacc c hc
    rw [if_neg h1] at hc
    simp only at hc
    have hnew : ∀ r ∈ ((relatedLoop articles sim threshold max_related i0
        (List.range' (i0 + 1) (articles.length - (i0 + 1))) (i0 :: assigned) []).1.map
          (artAt articles)),
        r.source ≠ (artAt articles i0).source := by
      intro r hr
      obtain ⟨j, hj, rfl⟩ := List.mem_map.mp hr
      exact relatedLoop_source_ne articles sim threshold max_related i0 _ _ []
        (by intro k hk; exact absurd hk (List.not_mem_nil k)) j hj
    have hext : ∀ c2 ∈ acc ++
        [{ id := "cluster-" ++ ((artAt articles i0).id.getD (toString i0))
           primary_article := artAt articles i0
           related_articles := (relatedLoop articles sim threshold max_related i0
             (List.range' (i0 + 1) (articles.length - (i0 + 1))) (i0 :: assigned) []).1.map
               (artAt articles)
           article_count := 1 + (relatedLoop articles sim threshold max_related i0
             (List.range' (i0 + 1) (articles.length - (i0 + 1))) (i0 :: assigned) []).1.length }],
        ∀ r ∈ c2.related_articles, r.source ≠ c2.primary_article.source := by
      intro c2 hc2
      rcases List.mem_append.mp hc2 with hc2 | hc2
      · exact hacc c2 hc2
      · rcases List.mem_singleton.mp hc2 with rfl
        exact hnew
    split at hc
    · exact hext c hc
    · exact ih _ _ hext c hc

end Mukoko.Clustering

namespace Mukoko

open Mukoko.Clustering

/-- C5, counterexample.  With three articles from sources `s1`, `s2`, `s2`, a
similarity matrix relating article 0 to both others, threshold 1, and the
default limits, `_build_clusters` produces one cluster whose two related
articles both come from source `s2`: the cross-source check only compares
each candidate against the primary article, not against other members. -/
theorem C5_counterexample :
    (build_clusters
        [⟨some "a", some "s1"⟩, ⟨some "b", some "s2"⟩, ⟨some "c", some "s2"⟩]
        (fun i _ => if i = 0 then 1 else 0) 1 4 10).map
      (fun c => (c.primary_article.source, c.related_articles.map (fun r => r.source)))
      = [(some "s1", [some "s2", some "s2"])] := by
  norm_num +decide [build_clusters, clustersLoop, relatedLoop, artAt, List.range,
    List.range', List.range.loop]

/-- C5, amended.  Every related article of a cluster comes from a different
source than the cluster's primary article (for every article list, similarity
matrix and configuration); two related articles of the same cluster may
nevertheless share a source, as the counterexample shows. -/
theorem C5_cross_source (articles : List ClArticle) (sim : Nat → Nat → ℚ)
    (threshold : ℚ) (max_related max_clusters : Nat) :
    ∀ c ∈ build_clusters articles sim threshold max_related max_clusters,
      ∀ r ∈ c.related_articles, r.source ≠ c.primary_article.source := by
  intro c hc
  exact clustersLoop_source_ne articles sim threshold max_related max_clusters
    (List.range articles.length) [] []
    (by intro c2 hc2; exact absurd hc2 (List.not_mem_nil c2)) c hc

/-- C5, witness for the amended theorem at a concrete two-article input: the
related article's source `s2` differs from the primary's source `s1`. -/
theorem C5_witness :
    (⟨some "b", some "s2"⟩ : ClArticle).source ≠
      ({ id := "cluster-a"
         primary_article := ⟨some "a", some "s1"⟩
         related_articles := [⟨some "b", some "s2"⟩]
         article_count := 2 } : Cluster).primary_article.source :=
  C5_cross_source [⟨some "a", some "s1"⟩, ⟨some "b", some "s2"⟩]
    (fun _ _ => 1) 1 4 10
    { id := "cluster-a"
      primary_article := ⟨some "a", some "s1"⟩
      related_articles := [⟨some "b", some "s2"⟩]
      article_count := 2 }
    (by decide) ⟨some "b", some "s2"⟩ (by decide)

end Mukoko

namespace Mukoko.Ranker

open Mukoko (round2)

/-!
Embedding of `src/processing/src/services/feed_ranker.py`, scalar path
(`_rank_loop` plus the final sort in `rank_feed`; the numpy path is the
optional vectorised variant of the same scoring).  The two transcendental
signals are taken as parameters: `recencyF` models `_recency_score`
(`exp(-hours·ln2/24)` of the parsed `published_at`, `0.3` on empty or
unparseable input) and `engF` models `x ↦ log10(x)/3` applied to
`max(views + 3·likes + 2·bookmarks + 1, 1)`; the properties proved hold for
every choice of these functions.  Preferences are taken after
`_normalise_preferences`, which only renames camelCase keys and wraps the
lists in sets. -/

/-- An article as read by the ranker. -/
structure RankArticle where
  source_id : Option String
  source : Option String
  author : Option String
  category_id : Option String
  country_id : Option String
  published_at : Option String
  view_count : Option ℚ
  like_count : Option ℚ
  bookmark_count : Option ℚ
  source_quality_score : Option ℚ
deriving DecidableEq, Repr

/-- Normalised user preferences. -/
structure Prefs where
  followed_sources : List String
  followed_authors : List String
  followed_categories : List String
  preferred_countries : List String
  primary_country : Option String
  category_interests : List (String × ℚ)
  recently_read : List String
deriving DecidableEq, Repr

/-- Python `article.get(key) in prefs[set]`: a missing value is never a
member. -/
def olistMem (o : Option String) (l : List String) : Bool :=
  match o with
  | some s => l.contains s
  | none => false

/-- Python `dict.get(key, 0.0)` over the interests map. -/
def interestOf (interests : List (String × ℚ)) (cat : String) : ℚ :=
  match interests with
  | [] => 0
  | (k, v) :: rest => if k = cat then v else interestOf rest cat

/-- The per-signal weighted contributions of `_rank_loop`, rounded as in the
`score_breakdown` dict. -/
structure RankBreakdown where
  followed_source : ℚ
  followed_author : ℚ
  followed_category : ℚ
  primary_country : ℚ
  category_interest : ℚ
  recency : ℚ
  engagement : ℚ
  source_quality : ℚ
deriving DecidableEq, Repr

/-- An article with its attached `score` and `score_breakdown`. -/
structure Scored where
  art : RankArticle
  score : ℚ
  breakdown : RankBreakdown
deriving DecidableEq, Repr

/-- The raw (pre-rounding) linear combination of the eight signals. -/
def rawScore (recencyF : String → ℚ) (engF : ℚ → ℚ) (prefs : Prefs)
    (a : RankArticle) : ℚ :=
  (if olistMem a.source_id prefs.followed_sources
      || olistMem a.source prefs.followed_sources then (1:ℚ) else 0) * 50
  + (if olistMem a.author prefs.followed_authors then (1:ℚ) else 0) * 40
  + (if olistMem a.category_id prefs.followed_categories then (1:ℚ) else 0) * 30
  + (if a.country_id = prefs.primary_country then (1:ℚ) else 0) * 35
  + interestOf prefs.category_interests (a.category_id.getD "") * 20
  + recencyF (a.published_at.getD "") * 25
  + engF (max (a.view_count.getD 0 + a.like_count.getD 0 * 3
      + a.bookmark_count.getD 0 * 2 + 1) 1) * 15
  + a.source_quality_score.getD (1/2) * 20

/-- The scoring part of `_rank_loop` (before its sort and diversity pass):
each article is scored and rounded to 2 decimals. -/
def rank_loop_scores (recencyF : String → ℚ) (engF : ℚ → ℚ) (prefs : Prefs)
    (articles : List RankArticle) : List Scored :=
  articles.map (fun a =>
    { art := a
      score := round2 (rawScore recencyF engF prefs a)
      breakdown :=
        { followed_source := round2 ((if olistMem a.source_id prefs.followed_sources
            || olistMem a.source prefs.followed_sources then (1:ℚ) else 0) * 50)
          followed_author := round2
            ((if olistMem a.author prefs.followed_authors then (1:ℚ) else 0) * 40)
          followed_category := round2
            ((if olistMem a.category_id prefs.followed_categories then (1:ℚ) else 0) * 30)
          primary_country := round2
            ((if a.country_id = prefs.primary_country then (1:ℚ) else 0) * 35)
          category_interest := round2
            (interestOf prefs.category_interests (a.category_id.getD "") * 20)
          recency := round2 (recencyF (a.published_at.getD "") * 25)
          engagement := round2 (engF (max (a.view_count.getD 0 + a.like_count.getD 0 * 3
            + a.bookmark_count.getD 0 * 2 + 1) 1) * 15)
          source_quality := round2 (a.source_quality_score.getD (1/2) * 20) } })

/-- Python `list.sort(key=score, reverse=True)`: a stable descending sort,
modelled by insertion sort with the reflexive-total relation
`x before y iff y.score ≤ x.score` (ties keep input order). -/
def sortByScoreDesc (l : List Scored) : List Scored :=
  List.insertionSort (fun x y => y.score ≤ x.score) l

/-- Python `article.get("category_id", "unknown")` in the diversity pass. -/
def catOf (s : Scored) : String := s.art.category_id.getD "unknown"

/-- Lookup in the `category_counts` dict (0 when absent). -/
def countOf (counts : List (String × Nat)) (cat : String) : Nat :=
  match counts with
  | [] => 0
  | (k, v) :: rest => if k = cat then v else countOf rest cat

/-- Python `category_counts[cat] = count + 1` (inserting at 1 when absent). -/
def bump (counts : List (String × Nat)) (cat : String) : List (String × Nat) :=
  match counts with
  | [] => [(cat, 1)]
  | (k, v) :: rest => if k = cat then (k, v + 1) :: rest else (k, v) :: bump rest cat

/-- The `-10·count` update of one diversity-pass step (a no-op re-rounding
is applied by the code after the addition). -/
def applyPen (a : Scored) (k : Nat) : Scored :=
  if 0 < k then { a with score := round2 (a.score + (-10) * k) } else a

/-- The diversity penalty pass of `_rank_loop`: walk the (sorted) list,
penalising each article by `-10·k` where `k` is the number of same-category
articles already seen. -/
def diversityFold (counts : List (String × Nat)) : List Scored → List Scored
  | [] => []
  | a :: rest => applyPen a (countOf counts (catOf a)) :: diversityFold (bump counts (catOf a)) rest

/-- Translation of `rank_feed` composed with `_rank_loop` (scalar path):
score, sort descending, apply the diversity pass, and re-sort once. -/
def rank_feed (recencyF : String → ℚ) (engF : ℚ → ℚ)
    (articles : List RankArticle) (prefs : Prefs) : List Scored :=
  if articles.isEmpty then []
  else sortByScoreDesc (diversityFold []
    (sortByScoreDesc (rank_loop_scores recencyF engF prefs articles)))

theorem countOf_bump (counts : List (String × Nat)) (c c' : String) :
    countOf (bump counts c) c' = countOf counts c' + (if c = c' then 1 else 0) := by
  induction counts with
  | nil =>
    unfold bump countOf
    unfold countOf
    split_ifs <;> omega
  | cons kv rest ih =>
    obtain ⟨k, v⟩ := kv
    by_cases hk : k = c
    · subst hk
      unfold bump
      rw [if_pos rfl]
      unfold countOf
      split_ifs <;> omega
    · unfold bump
      rw [if_neg hk]
      unfold countOf
      by_cases hk2 : k = c'
      · rw [if_pos hk2, if_pos hk2]
        have hne : ¬ c = c' := fun hcc => hk (hk2.trans hcc.symm)
        rw [if_neg hne]
        omega
      · rw [if_neg hk2, if_neg hk2]
        exact ih

theorem length_diversityFold (l : List Scored) :
    ∀ counts, (diversityFold counts l).length = l.length := by
  induction l with
  | nil => intro counts; rfl
  | cons a rest ih =>
    intro counts
    unfold diversityFold
    simp only [List.length_cons]
    rw [ih]

theorem diversityFold_get (l : List Scored) :
    ∀ (counts : List (String × Nat)) (idx : Nat) (h : idx < l.length)
      (h2 : idx < (diversityFold counts l).length),
      (diversityFold counts l).get ⟨idx, h2⟩ =
        applyPen (l.get ⟨idx, h⟩)
          (countOf counts (catOf (l.get ⟨idx, h⟩))
            + (l.take idx).countP (fun b => decide (catOf b = catOf (l.get ⟨idx, h⟩)))) := by
  induction l with
  | nil =>
    intro counts idx h
    exact absurd h (Nat.not_lt_zero idx)
  | cons a rest ih =>
    intro counts idx h h2
    cases idx with
    | zero => simp [diversityFold]
    | succ n =>
      have h' : n < rest.length := Nat.lt_of_succ_lt_succ h
      have h2' : n < (diversityFold (bump counts (catOf a)) rest).length := by
        rw [length_diversityFold]
        exact h'
      have hL : (diversityFold counts (a :: rest)).get ⟨n + 1, h2⟩
          = (diversityFold (bump counts (catOf a)) rest).get ⟨n, h2'⟩ := rfl
      have hR : (a :: rest).get ⟨n + 1, h⟩ = rest.get ⟨n, h'⟩ := rfl
      rw [hL, hR, ih (bump counts (catOf a)) n h' h2', countOf_bump,
        List.take_succ_cons, List.countP_cons]
      refine congrArg (applyPen (rest.get ⟨n, h'⟩)) ?_
      simp only [decide_eq_true_eq]
      split_ifs <;> omega

theorem rank_loop_scores_centi (recencyF : String → ℚ) (engF : ℚ → ℚ) (prefs : Prefs)
    (articles : List RankArticle) :
    ∀ s ∈ rank_loop_scores recencyF engF prefs articles, Mukoko.IsCenti s.score := by
  intro s hs
  obtain ⟨a, _, rfl⟩ := List.mem_map.mp hs
  exact Mukoko.round2_isCenti _

theorem sortByScoreDesc_perm (l : List Scored) : List.Perm (sortByScoreDesc l) l :=
  List.perm_insertionSort _ l

theorem sortByScoreDesc_sorted (l : List Scored) :
    List.Sorted (fun x y => y.score ≤ x.score) (sortByScoreDesc l) := by
  haveI : IsTotal Scored (fun x y => y.score ≤ x.score) :=
    ⟨fun a b => le_total b.score a.score⟩
  haveI : IsTrans Scored (fun x y => y.score ≤ x.score) :=
    ⟨fun a b c h1 h2 => le_trans h2 h1⟩
  exact List.sorted_insertionSort _ l

end Mukoko.Ranker

namespace Mukoko

open Mukoko.Ranker

/-- C6, confirmed.  For every preference record, article list and choice of
the two transcendental signal functions, writing `walk` for the candidates
sorted stably by raw (rounded) score descending: the diversity pass maps the
`idx`-th entry of `walk` to the same article with exactly `-10·k` added to
its score, where `k` is the number of earlier same-category entries of
`walk` (so the first of each category is unchanged, `k = 0`); the output of
`rank_feed` is exactly one stable descending re-sort of the penalised list:
a permutation of it, sorted descending by final score. -/
theorem C6_ranker (recencyF : String → ℚ) (engF : ℚ → ℚ)
    (articles : List RankArticle) (prefs : Prefs) :
    List.Sorted (fun x y => y.score ≤ x.score)
      (rank_feed recencyF engF articles prefs) ∧
    (rank_feed recencyF engF articles prefs).Perm
      (diversityFold [] (sortByScoreDesc (rank_loop_scores recencyF engF prefs articles))) ∧
    (∀ (idx : Nat)
      (h1 : idx < (sortByScoreDesc (rank_loop_scores recencyF engF prefs articles)).length)
      (h2 : idx < (diversityFold []
        (sortByScoreDesc (rank_loop_scores recencyF engF prefs articles))).length),
      ((diversityFold [] (sortByScoreDesc (rank_loop_scores recencyF engF prefs articles))).get
          ⟨idx, h2⟩).art
        = ((sortByScoreDesc (rank_loop_scores recencyF engF prefs articles)).get ⟨idx, h1⟩).art ∧
      ((diversityFold [] (sortByScoreDesc (rank_loop_scores recencyF engF prefs articles))).get
          ⟨idx, h2⟩).score
        = ((sortByScoreDesc (rank_loop_scores recencyF engF prefs articles)).get ⟨idx, h1⟩).score
          - 10 * (((sortByScoreDesc (rank_loop_scores recencyF engF prefs articles)).take
              idx).countP
            (fun b => decide (catOf b
              = catOf ((sortByScoreDesc (rank_loop_scores recencyF engF prefs articles)).get
                ⟨idx, h1⟩))) : ℚ)) := by
  refine ⟨?_, ?_, ?_⟩
  · unfold rank_feed
    split
    · exact List.sorted_nil
    · exact sortByScoreDesc_sorted _
  · unfold rank_feed
    split
    · rename_i hemp
      have : articles = [] := List.isEmpty_iff.mp (by simpa using hemp)
      subst this
      exact List.Perm.refl _
    · exact sortByScoreDesc_perm _
  · intro idx h1 h2
    have hget := diversityFold_get
      (sortByScoreDesc (rank_loop_scores recencyF engF prefs articles)) [] idx h1 h2
    set walk := sortByScoreDesc (rank_loop_scores recencyF engF prefs articles) with hwalk
    set x := walk.get ⟨idx, h1⟩ with hx
    have hcount0 : countOf [] (catOf x) = 0 := rfl
    rw [hcount0] at hget
    set k := (walk.take idx).countP (fun b => decide (catOf b = catOf x)) with hk
    have hcenti : Mukoko.IsCenti x.score := by
      have hxmem : x ∈ walk := List.get_mem walk idx h1
      have hxmem2 : x ∈ rank_loop_scores recencyF engF prefs articles :=
        (sortByScoreDesc_perm _).mem_iff.mp hxmem
      exact rank_loop_scores_centi recencyF engF prefs articles x hxmem2
    rw [hget]
    unfold applyPen
    by_cases hkpos : 0 < 0 + k
    · rw [if_pos hkpos]
      refine ⟨rfl, ?_⟩
      have hsub : x.score + ((-(10 * k) : ℤ) : ℚ) = x.score - 10 * (k : ℚ) := by
        push_cast
        ring
      have := Mukoko.round2_centi_sub_int hcenti (-(10 * k))
      simp only [Nat.zero_add]
      calc Mukoko.round2 (x.score + (-10) * (k : ℚ))
          = Mukoko.round2 (x.score + ((-(10 * k) : ℤ) : ℚ)) := by push_cast; ring_nf
        _ = x.score + ((-(10 * k) : ℤ) : ℚ) := this
        _ = x.score - 10 * (k : ℚ) := hsub
    · rw [if_neg hkpos]
      have hk0 : k = 0 := by omega
      refine ⟨rfl, ?_⟩
      rw [hk0]
      push_cast
      ring

/-- C6, witness for the theorem at a concrete two-article input with
empty preferences and constant signal functions. -/
theorem C6_witness :
    List.Sorted (fun x y => y.score ≤ x.score)
      (rank_feed (fun _ => 0) (fun _ => 0)
        [⟨none, none, none, some "pol", none, none, none, none, none, none⟩,
         ⟨none, none, none, some "pol", none, none, none, none, none, none⟩]
        ⟨[], [], [], [], none, [], []⟩) :=
  (C6_ranker (fun _ => 0) (fun _ => 0)
    [⟨none, none, none, some "pol", none, none, none, none, none, none⟩,
     ⟨none, none, none, some "pol", none, none, none, none, none, none⟩]
    ⟨[], [], [], [], none, [], []⟩).1

end Mukoko

namespace Mukoko.Cleaner

open Mukoko.Text

/-!
Embedding of `clean_html_content` in
`src/processing/services/content_cleaner.py`.  The BeautifulSoup-dependent
steps 1-4 (image extraction, removal of structural/ad/image nodes, DOM text
extraction) rely on the external `bs4` library and are modelled as an opaque
parameter `soup : String → CleanFlags → String × List String` returning the
extracted text and image list for the resolved flags; the short-input
short-circuit and the subsequent whitespace/noise normalisation (steps 5-6)
are in the repository and are embedded concretely.
-/

/-- The Python `options` dict: every recognised key, present or absent
(snake_case keys take precedence over their camelCase fallbacks). -/
structure CleanOptions where
  remove_images : Option Bool := none
  removeImages : Option Bool := none
  extract_image_urls : Option Bool := none
  extractImageUrls : Option Bool := none
  min_content_length : Option Int := none
  minContentLength : Option Int := none
  remove_ad_elements : Option Bool := none
deriving DecidableEq, Repr

/-- The boolean flags handed to the DOM stage. -/
structure CleanFlags where
  remove_images : Bool
  extract_image_urls : Bool
  remove_ad_elements : Bool
deriving DecidableEq, Repr

/-- The dict returned by `clean_html_content`. -/
structure CleanResult where
  cleaned_content : String
  extracted_images : List String
  removed_char_count : Int
deriving DecidableEq, Repr

/-- Python `opts.get("min_content_length", opts.get("minContentLength", 100))`. -/
def resolveMin (opts : CleanOptions) : Int :=
  opts.min_content_length.getD (opts.minContentLength.getD 100)

/-- Python `str.strip()`. -/
def pyStrip (l : List Char) : List Char :=
  ((l.dropWhile isSpacePy).reverse.dropWhile isSpacePy).reverse

/-- Emission of one maximal run of `n` copies of `c` under
`re.sub(r"(.)\1{3,}", r"\1\1", text)`: runs of length at least 4 collapse to
two copies; `.` does not match a newline, so newline runs are kept whole. -/
def emitRun (c : Char) (n : Nat) : List Char :=
  if c == '\n' then List.replicate n c
  else List.replicate (if 4 ≤ n then 2 else n) c

/-- Scans the remaining characters holding the current run `(c, n)`. -/
def compressAux (c : Char) (n : Nat) : List Char → List Char
  | [] => emitRun c n
  | d :: rest => if d == c then compressAux c (n + 1) rest
    else emitRun c n ++ compressAux d 1 rest

/-- Step 6 of the cleaner: squeeze any character repeated four or more times
down to two occurrences. -/
def compressRepeats : List Char → List Char
  | [] => []
  | c :: rest => compressAux c 1 rest

/-- Translation of `clean_html_content`. -/
def clean_html_content (soup : String → CleanFlags → String × List String)
    (raw_html : Option String) (options : CleanOptions) : CleanResult :=
  let raw := raw_html.getD ""
  if raw.data.isEmpty ∨ (raw.length : Int) < resolveMin options then
    { cleaned_content := raw, extracted_images := [], removed_char_count := 0 }
  else
    let flags : CleanFlags :=
      { remove_images := options.remove_images.getD (options.removeImages.getD true)
        extract_image_urls :=
          options.extract_image_urls.getD (options.extractImageUrls.getD true)
        remove_ad_elements := options.remove_ad_elements.getD true }
    let extracted := soup raw flags
    let text := compressRepeats (pyStrip (collapseRuns isSpacePy ' ' false extracted.1.data))
    { cleaned_content := String.mk text
      extracted_images := extracted.2
      removed_char_count := (raw.length : Int) - text.length }

/-- Any input below the resolved minimum length is returned verbatim, with no
image extraction and a zero removed-character count. -/
theorem clean_below_min (soup : String → CleanFlags → String × List String)
    (raw_html : Option String) (opts : CleanOptions)
    (h : ((raw_html.getD "").length : Int) < resolveMin opts) :
    clean_html_content soup raw_html opts =
      { cleaned_content := raw_html.getD ""
        extracted_images := []
        removed_char_count := 0 } := by
  unfold clean_html_content
  rw [if_pos (Or.inr h)]

end Mukoko.Cleaner

namespace Mukoko

open Mukoko.Cleaner

/-- The end-to-end scenario input of the specification: 84 characters. -/
def c2Input : String :=
  "<p>Hello</p><script>alert(1)</script><div class=\"ad-container\">Buy</div><p>World</p>"

/-- C2, code bug.  The specification (and the repository's own cleaner tests,
which feed sub-100-character fixtures and expect script and ad content to be
stripped) expects `cleaned_content = "Hello World"` for this input, but the
input is 84 characters long, below the default `min_content_length` of 100,
so `clean_html_content` returns it verbatim — scripts, ad markup and all —
with an empty image list, for every behaviour of the DOM stage. -/
theorem C2_code_bug :
    ∀ soup : String → CleanFlags → String × List String,
      (clean_html_content soup (some c2Input) {}).cleaned_content = c2Input ∧
      (clean_html_content soup (some c2Input) {}).extracted_images = [] ∧
      c2Input.length = 84 ∧
      (clean_html_content soup (some c2Input) {}).cleaned_content ≠ "Hello World" := by
  intro soup
  have h := clean_below_min soup (some c2Input) {} (by decide)
  rw [h]
  refine ⟨rfl, rfl, by decide, by decide⟩

/-- C10, confirmed.  For every options record and raw input strictly shorter
than the resolved minimum input length (default 100), the cleaner returns
the input verbatim (the empty string when the input is empty or `None`),
with an empty `extracted_images` list and `removed_char_count = 0`, for
every behaviour of the DOM stage — no tag removal, image extraction or
whitespace normalisation happens below the threshold. -/
theorem C10_short_input (soup : String → CleanFlags → String × List String)
    (raw_html : Option String) (opts : CleanOptions)
    (h : ((raw_html.getD "").length : Int) < resolveMin opts) :
    clean_html_content soup raw_html opts =
      { cleaned_content := raw_html.getD ""
        extracted_images := []
        removed_char_count := 0 } :=
  clean_below_min soup raw_html opts h

/-- C10, witness at a concrete short input. -/
theorem C10_witness :
    clean_html_content (fun s _ => (s, [])) (some "Hi<b>x</b>") {} =
      { cleaned_content := "Hi<b>x</b>"
        extracted_images := []
        removed_char_count := 0 } :=
  C10_short_input (fun s _ => (s, [])) (some "Hi<b>x</b>") {} (by decide)

end Mukoko

namespace Mukoko.Collector

/-!
Embedding of `_deduplicate` and the store-mutating part of
`_fetch_and_process` in `src/processing/src/services/feed_collector.py`.
The primary store is a list of article documents; `db.find` with an `$in`
filter, a projection and `limit = n` is modelled as the matching documents
in store order truncated to `n`; `insert_many` appends.  Missing and empty
`rss_guid` / `original_url` are identified (both are falsy in the Python
`.get` tests).  `hashlib.sha256(...).hexdigest()` is an opaque parameter
`hash`, `datetime.now(...)` the parameter `now`.
-/

/-- An article document, with the fields the collector reads and writes. -/
structure Article where
  title : String := ""
  content : Option String := none
  description : Option String := none
  rss_guid : String := ""
  original_url : String := ""
  content_hash : String := ""
  created_at : String := ""
  ai_processed : Bool := true
deriving DecidableEq, Repr

/-- The non-empty `rss_guid` values of a document list, in order. -/
def guidProj (l : List Article) : List String :=
  l.filterMap (fun a => if a.rss_guid ≠ "" then some a.rss_guid else none)

/-- The non-empty `original_url` values of a document list, in order. -/
def urlProj (l : List Article) : List String :=
  l.filterMap (fun a => if a.original_url ≠ "" then some a.original_url else none)

/-- The local `guids` of `_deduplicate`: truthy `rss_guid` values of the
incoming batch. -/
def batchGuids (articles : List Article) : List String :=
  (articles.filter (fun a => !(a.rss_guid == ""))).map (fun a => a.rss_guid)

/-- The local `urls` of `_deduplicate`. -/
def batchUrls (articles : List Article) : List String :=
  (articles.filter (fun a => !(a.original_url == ""))).map (fun a => a.original_url)

/-- The local `existing_guids`: the `$in` query over `guids` with
`limit = len(guids)`, projected to truthy `rss_guid` values. -/
def existingGuids (store : List Article) (guids : List String) : List String :=
  ((store.filter (fun e => guids.contains e.rss_guid)).take guids.length).filterMap
    (fun e => if e.rss_guid ≠ "" then some e.rss_guid else none)

/-- The local `existing_urls`: the `$in` query over `urls` with
`limit = len(urls)`, projected to truthy `original_url` values. -/
def existingUrls (store : List Article) (urls : List String) : List String :=
  ((store.filter (fun e => urls.contains e.original_url)).take urls.length).filterMap
    (fun e => if e.original_url ≠ "" then some e.original_url else none)

/-- Translation of `_deduplicate`: drop incoming articles whose `rss_guid`
or `original_url` was matched in the store by the two `$in` queries. -/
def dedup (articles : List Article) (store : List Article) : List Article :=
  if (batchGuids articles).isEmpty && (batchUrls articles).isEmpty then articles
  else
    articles.filter (fun a =>
      !((existingGuids store (batchGuids articles)).contains a.rss_guid)
      && !((existingUrls store (batchUrls articles)).contains a.original_url))

/-- The per-article stamping in `_fetch_and_process`: `content_hash` is the
16-hex-character prefix of the hash of `title + content` (falling back to
the description), `created_at` is the current instant, `ai_processed` is
reset. -/
def stamp (hash : String → String) (now : String) (a : Article) : Article :=
  { a with
    content_hash := (hash (a.title ++ a.content.getD (a.description.getD ""))).take 16
    created_at := now
    ai_processed := false }

/-- The store effect of `_fetch_and_process` on one fetched batch:
deduplicate against the store, stamp, bulk-insert. -/
def process_source (hash : String → String) (now : String)
    (store : List Article) (batch : List Article) : List Article :=
  store ++ (dedup batch store).map (stamp hash now)

/-- The store effect of a whole collector run over its fetched batches
(batches are processed against the store as it grows). -/
def run_collector (hash : String → String) (now : String)
    (store : List Article) (batches : List (List Article)) : List Article :=
  batches.foldl (process_source hash now) store

/-- The specification's I-Dedup admission predicate: new iff no stored
article has the same non-empty `rss_guid` and none has the same
`original_url`. -/
def isNewOnStore (store : List Article) (a : Article) : Bool :=
  (a.rss_guid == "" || store.all (fun e => !(e.rss_guid == a.rss_guid)))
  && store.all (fun e => !(e.original_url == a.original_url))

theorem stamp_guid (hash : String → String) (now : String) (a : Article) :
    (stamp hash now a).rss_guid = a.rss_guid := by
  simp [stamp]

theorem stamp_url (hash : String → String) (now : String) (a : Article) :
    (stamp hash now a).original_url = a.original_url := by
  simp [stamp]

theorem guidProj_map_stamp (hash : String → String) (now : String) (l : List Article) :
    guidProj (l.map (stamp hash now)) = guidProj l := by
  induction l with
  | nil => rfl
  | cons a rest ih =>
    simp only [List.map_cons, guidProj, List.filterMap_cons] at ih ⊢
    rw [stamp_guid]
    split <;> rw [ih]

theorem urlProj_map_stamp (hash : String → String) (now : String) (l : List Article) :
    urlProj (l.map (stamp hash now)) = urlProj l := by
  induction l with
  | nil => rfl
  | cons a rest ih =>
    simp only [List.map_cons, urlProj, List.filterMap_cons] at ih ⊢
    rw [stamp_url]
    split <;> rw [ih]

/-- The `$in` query result is never truncated by its `limit` when the store
projection under `f` has no duplicates: the matched documents have pairwise
distinct non-empty `f`-values all drawn from `keys`. -/
theorem matched_take_eq (f : Article → String) (store : List Article)
    (keys : List String) (hkeys : ∀ k ∈ keys, k ≠ "")
    (hnd : (store.filterMap (fun a => if f a ≠ "" then some (f a) else none)).Nodup) :
    (store.filter (fun e => keys.contains (f e))).take keys.length
      = store.filter (fun e => keys.contains (f e)) := by
  apply List.take_of_length_le
  have hmem : ∀ a ∈ store.filter (fun e => keys.contains (f e)), f a ∈ keys := by
    intro a ha
    have h2 := (List.mem_filter.mp ha).2
    simpa [List.elem_eq_mem] using h2
  have hproj : (store.filter (fun e => keys.contains (f e))).map f
      = (store.filter (fun e => keys.contains (f e))).filterMap
          (fun a => if f a ≠ "" then some (f a) else none) := by
    rw [show ((store.filter (fun e => keys.contains (f e))).map f
        = (store.filter (fun e => keys.contains (f e))).filterMap (some ∘ f))
      from (congrFun (List.filterMap_eq_map f) _).symm]
    apply List.filterMap_congr
    intro a ha
    rw [if_pos (hkeys (f a) (hmem a ha))]
    rfl
  have hnd2 : ((store.filter (fun e => keys.contains (f e))).map f).Nodup := by
    rw [hproj]
    exact hnd.sublist ((List.filter_sublist store).filterMap _)
  have hsub : ((store.filter (fun e => keys.contains (f e))).map f) ⊆ keys := by
    intro x hx
    obtain ⟨a, ha, rfl⟩ := List.mem_map.mp hx
    exact hmem a ha
  have hle := (List.subperm_of_subset hnd2 hsub).length_le
  simpa using hle

theorem existingGuids_eq (store : List Article) (keys : List String)
    (hkeys : ∀ k ∈ keys, k ≠ "") (hnd : (guidProj store).Nodup) :
    existingGuids store keys
      = (store.filter (fun e => keys.contains e.rss_guid)).filterMap
          (fun e => if e.rss_guid ≠ "" then some e.rss_guid else none) := by
  unfold existingGuids
  rw [matched_take_eq (fun a => a.rss_guid) store keys hkeys hnd]

theorem existingUrls_eq (store : List Article) (keys : List String)
    (hkeys : ∀ k ∈ keys, k ≠ "") (hnd : (urlProj store).Nodup) :
    existingUrls store keys
      = (store.filter (fun e => keys.contains e.original_url)).filterMap
          (fun e => if e.original_url ≠ "" then some e.original_url else none) := by
  unfold existingUrls
  rw [matched_take_eq (fun a => a.original_url) store keys hkeys hnd]

theorem batchGuids_ne (articles : List Article) : ∀ k ∈ batchGuids articles, k ≠ "" := by
  intro k hk
  obtain ⟨a, ha, rfl⟩ := List.mem_map.mp hk
  have h2 := (List.mem_filter.mp ha).2
  simpa using h2

theorem batchUrls_ne (articles : List Article) : ∀ k ∈ batchUrls articles, k ≠ "" := by
  intro k hk
  obtain ⟨a, ha, rfl⟩ := List.mem_map.mp hk
  have h2 := (List.mem_filter.mp ha).2
  simpa using h2

theorem mem_existingGuids (store : List Article) (keys : List String)
    (hkeys : ∀ k ∈ keys, k ≠ "") (hnd : (guidProj store).Nodup) (x : String) :
    x ∈ existingGuids store keys ↔ x ≠ "" ∧ x ∈ keys ∧ ∃ e ∈ store, e.rss_guid = x := by
  rw [existingGuids_eq store keys hkeys hnd]
  constructor
  · intro hx
    obtain ⟨e, he, hsome⟩ := List.mem_filterMap.mp hx
    rcases List.mem_filter.mp he with ⟨hestore, hematch⟩
    by_cases hne : e.rss_guid ≠ ""
    · rw [if_pos hne] at hsome
      rcases Option.some.injEq _ _ ▸ hsome with rfl
      refine ⟨hne, ?_, ⟨e, hestore, rfl⟩⟩
      simpa [List.elem_eq_mem] using hematch
    · rw [if_neg hne] at hsome
      exact Option.noConfusion hsome
  · rintro ⟨hne, hxk, e, hestore, rfl⟩
    apply List.mem_filterMap.mpr
    refine ⟨e, ?_, ?_⟩
    · apply List.mem_filter.mpr
      exact ⟨hestore, by simpa [List.elem_eq_mem] using hxk⟩
    · rw [if_pos hne]

theorem mem_existingUrls (store : List Article) (keys : List String)
    (hkeys : ∀ k ∈ keys, k ≠ "") (hnd : (urlProj store).Nodup) (x : String) :
    x ∈ existingUrls store keys ↔ x ≠ "" ∧ x ∈ keys ∧ ∃ e ∈ store, e.original_url = x := by
  rw [existingUrls_eq store keys hkeys hnd]
  constructor
  · intro hx
    obtain ⟨e, he, hsome⟩ := List.mem_filterMap.mp hx
    rcases List.mem_filter.mp he with ⟨hestore, hematch⟩
    by_cases hne : e.original_url ≠ ""
    · rw [if_pos hne] at hsome
      rcases Option.some.injEq _ _ ▸ hsome with rfl
      refine ⟨hne, ?_, ⟨e, hestore, rfl⟩⟩
      simpa [List.elem_eq_mem] using hematch
    · rw [if_neg hne] at hsome
      exact Option.noConfusion hsome
  · rintro ⟨hne, hxk, e, hestore, rfl⟩
    apply List.mem_filterMap.mpr
    refine ⟨e, ?_, ?_⟩
    · apply List.mem_filter.mpr
      exact ⟨hestore, by simpa [List.elem_eq_mem] using hxk⟩
    · rw [if_pos hne]

/-- The admission test of `_deduplicate` agrees with the I-Dedup predicate
whenever the store's non-empty guid and url projections are duplicate-free
(so the query `limit` cannot truncate) and every incoming article has a
non-empty `original_url` (as every parsed article does: `original_url` is
the mandatory item link). -/
theorem dedup_eq_filter (store batch : List Article)
    (hg : (guidProj store).Nodup) (hu : (urlProj store).Nodup)
    (hbu : ∀ a ∈ batch, a.original_url ≠ "") :
    dedup batch store = batch.filter (isNewOnStore store) := by
  unfold dedup
  split
  · rename_i hempty
    cases batch with
    | nil => rfl
    | cons a rest =>
      exfalso
      have hau : a.original_url ≠ "" := hbu a (List.mem_cons_self a rest)
      have hmem : a.original_url ∈ batchUrls (a :: rest) := by
        apply List.mem_map.mpr
        refine ⟨a, ?_, rfl⟩
        apply List.mem_filter.mpr
        exact ⟨List.mem_cons_self a rest, by simpa using hau⟩
      have hempty2 : (batchUrls (a :: rest)).isEmpty = true := by
        simp only [Bool.and_eq_true] at hempty
        exact hempty.2
      rw [List.isEmpty_iff] at hempty2
      rw [hempty2] at hmem
      exact absurd hmem (List.not_mem_nil _)
  · apply List.filter_congr
    intro a ha
    rw [Bool.eq_iff_iff]
    simp only [Bool.and_eq_true, Bool.not_eq_true', isNewOnStore, Bool.or_eq_true,
      beq_iff_eq, List.all_eq_true]
    constructor
    · rintro ⟨hcg, hcu⟩
      refine ⟨?_, ?_⟩
      · by_cases hgne : a.rss_guid = ""
        · exact Or.inl hgne
        · right
          intro e he
          rw [beq_eq_false_iff_ne]
          intro hcon
          have hmemg : a.rss_guid ∈ batchGuids batch := by
            apply List.mem_map.mpr
            exact ⟨a, List.mem_filter.mpr ⟨ha, by simpa using hgne⟩, rfl⟩
          have hmm : a.rss_guid ∈ existingGuids store (batchGuids batch) :=
            (mem_existingGuids store (batchGuids batch) (batchGuids_ne batch) hg
              a.rss_guid).mpr ⟨hgne, hmemg, e, he, hcon⟩
          have hctrue : (existingGuids store (batchGuids batch)).contains a.rss_guid
              = true := by
            simp [List.contains, List.elem_eq_mem, hmm]
          rw [hcg] at hctrue
          exact Bool.noConfusion hctrue
      · intro e he
        rw [beq_eq_false_iff_ne]
        intro hcon
        have hau : a.original_url ≠ "" := hbu a ha
        have hmemu : a.original_url ∈ batchUrls batch := by
          apply List.mem_map.mpr
          exact ⟨a, List.mem_filter.mpr ⟨ha, by simpa using hau⟩, rfl⟩
        have hmm : a.original_url ∈ existingUrls store (batchUrls batch) :=
          (mem_existingUrls store (batchUrls batch) (batchUrls_ne batch) hu
            a.original_url).mpr ⟨hau, hmemu, e, he, hcon⟩
        have hctrue : (existingUrls store (batchUrls batch)).contains a.original_url
            = true := by
          simp [List.contains, List.elem_eq_mem, hmm]
        rw [hcu] at hctrue
        exact Bool.noConfusion hctrue
    · rintro ⟨hgclause, huclause⟩
      constructor
      · simp only [List.contains, List.elem_eq_mem, decide_eq_false_iff_not]
        intro hmem
        rcases (mem_existingGuids store (batchGuids batch) (batchGuids_ne batch) hg
          a.rss_guid).mp hmem with ⟨hne, _, e, he, heq⟩
        rcases hgclause with hempty | hall
        · exact hne hempty
        · have := hall e he
          simp only [Bool.not_eq_true', beq_eq_false_iff_ne] at this
          exact this heq
      · simp only [List.contains, List.elem_eq_mem, decide_eq_false_iff_not]
        intro hmem
        rcases (mem_existingUrls store (batchUrls batch) (batchUrls_ne batch) hu
          a.original_url).mp hmem with ⟨hne, _, e, he, heq⟩
        have := huclause e he
        simp only [Bool.not_eq_true', beq_eq_false_iff_ne] at this
        exact this heq

theorem guidProj_append (l1 l2 : List Article) :
    guidProj (l1 ++ l2) = guidProj l1 ++ guidProj l2 :=
  List.filterMap_append l1 l2 _

theorem urlProj_append (l1 l2 : List Article) :
    urlProj (l1 ++ l2) = urlProj l1 ++ urlProj l2 :=
  List.filterMap_append l1 l2 _

/-- One batch preserves the store invariant: deduplication keeps the
non-empty guid and url projections duplicate-free, provided the incoming
batch itself carries no duplicate non-empty guid or url. -/
theorem process_source_nodup (hash : String → String) (now : String)
    (store b : List Article)
    (hg : (guidProj store).Nodup) (hu : (urlProj store).Nodup)
    (hbu : ∀ a ∈ b, a.original_url ≠ "")
    (hbg : (guidProj b).Nodup) (hbuu : (urlProj b).Nodup) :
    (guidProj (process_source hash now store b)).Nodup ∧
    (urlProj (process_source hash now store b)).Nodup := by
  unfold process_source
  rw [dedup_eq_filter store b hg hu hbu]
  constructor
  · rw [guidProj_append, guidProj_map_stamp]
    refine List.nodup_append.mpr ⟨hg, ?_, ?_⟩
    · exact hbg.sublist ((List.filter_sublist b).filterMap _)
    · intro x hx1 hx2
      obtain ⟨a, hamem, hsome⟩ := List.mem_filterMap.mp hx2
      by_cases hne : a.rss_guid ≠ ""
      · rw [if_pos hne] at hsome
        obtain rfl : a.rss_guid = x := Option.some.inj hsome
        have hnew := (List.mem_filter.mp hamem).2
        simp only [isNewOnStore, Bool.and_eq_true, Bool.or_eq_true, beq_iff_eq,
          List.all_eq_true, Bool.not_eq_true', beq_eq_false_iff_ne] at hnew
        rcases hnew.1 with hemp | hall
        · exact hne hemp
        · obtain ⟨e, he, hsome2⟩ := List.mem_filterMap.mp hx1
          by_cases hne2 : e.rss_guid ≠ ""
          · rw [if_pos hne2] at hsome2
            exact hall e he (Option.some.inj hsome2)
          · rw [if_neg hne2] at hsome2
            exact Option.noConfusion hsome2
      · rw [if_neg hne] at hsome
        exact Option.noConfusion hsome
  · rw [urlProj_append, urlProj_map_stamp]
    refine List.nodup_append.mpr ⟨hu, ?_, ?_⟩
    · exact hbuu.sublist ((List.filter_sublist b).filterMap _)
    · intro x hx1 hx2
      obtain ⟨a, hamem, hsome⟩ := List.mem_filterMap.mp hx2
      by_cases hne : a.original_url ≠ ""
      · rw [if_pos hne] at hsome
        obtain rfl : a.original_url = x := Option.some.inj hsome
        have hnew := (List.mem_filter.mp hamem).2
        simp only [isNewOnStore, Bool.and_eq_true, Bool.or_eq_true, beq_iff_eq,
          List.all_eq_true, Bool.not_eq_true', beq_eq_false_iff_ne] at hnew
        obtain ⟨e, he, hsome2⟩ := List.mem_filterMap.mp hx1
        by_cases hne2 : e.original_url ≠ ""
        · rw [if_pos hne2] at hsome2
          exact hnew.2 e he (Option.some.inj hsome2)
        · rw [if_neg hne2] at hsome2
          exact Option.noConfusion hsome2
      · rw [if_neg hne] at hsome
        exact Option.noConfusion hsome

/-- A whole run preserves the invariant. -/
theorem run_collector_nodup (hash : String → String) (now : String)
    (batches : List (List Article)) :
    ∀ store : List Article,
      (guidProj store).Nodup → (urlProj store).Nodup →
      (∀ b ∈ batches, (∀ a ∈ b, a.original_url ≠ "")
        ∧ (guidProj b).Nodup ∧ (urlProj b).Nodup) →
      (guidProj (run_collector hash now store batches)).Nodup ∧
      (urlProj (run_collector hash now store batches)).Nodup := by
  induction batches with
  | nil => intro store hg hu _; exact ⟨hg, hu⟩
  | cons b rest ih =>
    intro store hg hu hb
    have hstep := process_source_nodup hash now store b hg hu
      (hb b (List.mem_cons_self b rest)).1
      (hb b (List.mem_cons_self b rest)).2.1
      (hb b (List.mem_cons_self b rest)).2.2
    exact ih (process_source hash now store b) hstep.1 hstep.2
      (fun b2 hb2 => hb b2 (List.mem_cons_of_mem b hb2))

end Mukoko.Collector

namespace Mukoko

open Mukoko.Collector

/-- C1, counterexample.  Two articles of one fetched batch sharing the
non-empty guid `"g"` are both inserted into an empty store — `_deduplicate`
only checks incoming articles against already-stored ones, not against each
other — so after the run the store's non-empty `rss_guid` projection is
`["g", "g"]`, not a set. -/
theorem C1_counterexample :
    guidProj (process_source (fun _ => "h") "t" []
        [{ rss_guid := "g", original_url := "u1" },
         { rss_guid := "g", original_url := "u2" }])
      = ["g", "g"] ∧
    ¬ (guidProj (process_source (fun _ => "h") "t" []
        [{ rss_guid := "g", original_url := "u1" },
         { rss_guid := "g", original_url := "u2" }])).Nodup := by
  constructor
  · decide
  · decide

/-- C1, amended.  Over a store whose non-empty guid and url projections are
duplicate-free, and for batches of parsed articles (which always carry a
non-empty `original_url`): an incoming article survives `_deduplicate`
exactly when no stored article has the same non-empty `rss_guid` and none
has the same `original_url` (the I-Dedup rule); and a collector run
preserves the no-duplicate property of both projections provided each
fetched batch is itself free of internal duplicate guids and urls — the
code does not deduplicate within a batch, as the counterexample shows. -/
theorem C1_dedup_invariant (hash : String → String) (now : String)
    (store : List Article)
    (hg : (guidProj store).Nodup) (hu : (urlProj store).Nodup) :
    (∀ batch : List Article, (∀ a ∈ batch, a.original_url ≠ "") →
      dedup batch store = batch.filter (isNewOnStore store)) ∧
    (∀ batches : List (List Article),
      (∀ b ∈ batches, (∀ a ∈ b, a.original_url ≠ "")
        ∧ (guidProj b).Nodup ∧ (urlProj b).Nodup) →
      (guidProj (run_collector hash now store batches)).Nodup ∧
      (urlProj (run_collector hash now store batches)).Nodup) := by
  constructor
  · intro batch hbu
    exact dedup_eq_filter store batch hg hu hbu
  · intro batches hb
    exact run_collector_nodup hash now batches store hg hu hb

/-- C1, witness for the amended theorem: a store with one article, a batch
with one distinct article; the batch article is admitted and the projections
stay duplicate-free. -/
theorem C1_witness :
    dedup [{ rss_guid := "g2", original_url := "u2" }]
        [{ rss_guid := "g1", original_url := "u1" }]
      = [{ rss_guid := "g2", original_url := "u2" }].filter
          (isNewOnStore [{ rss_guid := "g1", original_url := "u1" }]) ∧
    (guidProj (run_collector (fun _ => "h") "t"
        [{ rss_guid := "g1", original_url := "u1" }]
        [[{ rss_guid := "g2", original_url := "u2" }]])).Nodup :=
  ⟨(C1_dedup_invariant (fun _ => "h") "t"
      [{ rss_guid := "g1", original_url := "u1" }] (by decide) (by decide)).1
      [{ rss_guid := "g2", original_url := "u2" }] (by decide),
   ((C1_dedup_invariant (fun _ => "h") "t"
      [{ rss_guid := "g1", original_url := "u1" }] (by decide) (by decide)).2
      [[{ rss_guid := "g2", original_url := "u2" }]] (by decide)).1⟩

end Mukoko

namespace Mukoko.Keywords

/-!
Embedding of `extract_keywords` and `_find_db_keyword` in
`src/processing/src/services/keyword_extractor.py`.  The LLM gateway's
parsed JSON output is the parameter `llm` (`none` when the call failed, was
skipped, or returned an unusable shape); the loaded keyword dictionary
`db_keywords` carries `name` (MongoDB path) or `keyword` (D1 alias path);
`env` presence is the flag `envPresent`.  The `usage_count` update is a
store side effect that does not alter the returned records.
-/

/-- A dictionary keyword row. -/
structure DbKeyword where
  name : Option String := none
  keyword : Option String := none
  category_id : Option String := none
deriving DecidableEq, Repr

/-- Python `db_kw.get("name", db_kw.get("keyword", ""))`. -/
def nameOf (k : DbKeyword) : String := k.name.getD (k.keyword.getD "")

/-- One entry of the LLM's parsed `keywords` array. -/
structure LlmKw where
  keyword : Option String := none
  confidence : Option ℚ := none
deriving DecidableEq, Repr

/-- A returned `(keyword, confidence, category)` record. -/
structure KwRecord where
  keyword : String
  confidence : ℚ
  category : String
deriving DecidableEq, Repr

/-- Python `str.lower()` (ASCII-faithful). -/
def pyLower (s : String) : String := String.mk (s.data.map Char.toLower)

/-- Translation of `_find_db_keyword`: first dictionary row whose name
matches case-insensitively. -/
def find_db_keyword (kw : String) (db_keywords : List DbKeyword) : Option DbKeyword :=
  db_keywords.find? (fun d => pyLower (nameOf d) == pyLower kw)

/-- The LLM acceptance loop: keep entries that are in the dictionary
(case-insensitively) with confidence strictly above 0.5. -/
def llmExtract (db_keywords : List DbKeyword) : List LlmKw → List KwRecord
  | [] => []
  | kw :: rest =>
    match find_db_keyword (kw.keyword.getD "") db_keywords with
    | some db_match =>
      if 1/2 < kw.confidence.getD 0 then
        { keyword := kw.keyword.getD ""
          confidence := kw.confidence.getD 0
          category := db_match.category_id.getD "" } :: llmExtract db_keywords rest
      else llmExtract db_keywords rest
    | none => llmExtract db_keywords rest

/-- The guarded LLM phase: runs only when `env` is present and the joined
keyword list is truthy. -/
def llmPhase (envPresent : Bool) (llm : Option (List LlmKw))
    (db_keywords : List DbKeyword) : List KwRecord :=
  if envPresent && !(String.intercalate ", " (db_keywords.map nameOf) == "") then
    match llm with
    | some kws => llmExtract db_keywords kws
    | none => []
  else []

/-- Python `needle in hay` over strings (as character lists). -/
def containsSub (needle : List Char) : List Char → Bool
  | [] => needle.isEmpty
  | c :: rest => needle.isPrefixOf (c :: rest) || containsSub needle rest

/-- The one fallback record appended per matching dictionary row. -/
def fallbackRecord (kw : DbKeyword) : KwRecord :=
  { keyword := nameOf kw, confidence := 7/10, category := kw.category_id.getD "" }

/-- The substring-matching fallback over the top 20 dictionary rows,
assigning confidence 0.7 and breaking once 8 records are accumulated. -/
def fallbackLoop (content_lower : List Char) (acc : List KwRecord) :
    List DbKeyword → List KwRecord
  | [] => acc
  | kw :: rest =>
    if containsSub ((nameOf kw).data.map Char.toLower) content_lower then
      if 8 ≤ (acc ++ [fallbackRecord kw]).length then acc ++ [fallbackRecord kw]
      else fallbackLoop content_lower (acc ++ [fallbackRecord kw]) rest
    else fallbackLoop content_lower acc rest

/-- The `extracted` list after the fallback guard: when the LLM phase
produced nothing and the dictionary is non-empty, run the substring fallback
over `(title + " " + content).lower()`. -/
def extractedAfterFallback (envPresent : Bool) (llm : Option (List LlmKw))
    (db_keywords : List DbKeyword) (title content : String) : List KwRecord :=
  if (llmPhase envPresent llm db_keywords).isEmpty && !db_keywords.isEmpty then
    fallbackLoop ((title ++ " " ++ content).data.map Char.toLower) []
      (db_keywords.take 20)
  else llmPhase envPresent llm db_keywords

/-- Translation of `extract_keywords`: empty on short content, otherwise the
first 8 extracted records. -/
def extract_keywords (envPresent : Bool) (llm : Option (List LlmKw))
    (db_keywords : List DbKeyword) (title content : String) : List KwRecord :=
  if content.length < 50 then []
  else (extractedAfterFallback envPresent llm db_keywords title content).take 8

theorem llmExtract_mem (db_keywords : List DbKeyword) :
    ∀ (kws : List LlmKw) (k : KwRecord), k ∈ llmExtract db_keywords kws →
      1/2 < k.confidence ∧ ∃ d ∈ db_keywords, pyLower (nameOf d) = pyLower k.keyword := by
  intro kws
  induction kws with
  | nil => intro k hk; simp [llmExtract] at hk
  | cons kw rest ih =>
    intro k hk
    unfold llmExtract at hk
    cases hfind : find_db_keyword (kw.keyword.getD "") db_keywords with
    | none =>
      rw [hfind] at hk
      exact ih k hk
    | some db_match =>
      rw [hfind] at hk
      dsimp only at hk
      by_cases hconf : (1:ℚ)/2 < kw.confidence.getD 0
      · rw [if_pos hconf] at hk
        rcases List.mem_cons.mp hk with rfl | hk2
        · refine ⟨hconf, db_match, ?_, ?_⟩
          · exact List.mem_of_find?_eq_some hfind
          · have := List.find?_some hfind
            simpa using this
        · exact ih k hk2
      · rw [if_neg hconf] at hk
        exact ih k hk

theorem fallbackLoop_mem (content_lower : List Char) :
    ∀ (dbs : List DbKeyword) (acc : List KwRecord) (k : KwRecord),
      k ∈ fallbackLoop content_lower acc dbs →
      k ∈ acc ∨ (k.confidence = 7/10 ∧ ∃ d ∈ dbs, k.keyword = nameOf d) := by
  intro dbs
  induction dbs with
  | nil => intro acc k hk; exact Or.inl hk
  | cons kw rest ih =>
    intro acc k hk
    unfold fallbackLoop at hk
    by_cases hin : containsSub ((nameOf kw).data.map Char.toLower) content_lower = true
    · rw [if_pos hin] at hk
      split at hk
      · rcases List.mem_append.mp hk with hk2 | hk2
        · exact Or.inl hk2
        · rcases List.mem_singleton.mp hk2 with rfl
          exact Or.inr ⟨rfl, kw, List.mem_cons_self kw rest, rfl⟩
      · rcases ih _ k hk with hk2 | hk2
        · rcases List.mem_append.mp hk2 with hk3 | hk3
          · exact Or.inl hk3
          · rcases List.mem_singleton.mp hk3 with rfl
            exact Or.inr ⟨rfl, kw, List.mem_cons_self kw rest, rfl⟩
        · exact Or.inr ⟨hk2.1, hk2.2.choose,
            List.mem_cons_of_mem kw hk2.2.choose_spec.1, hk2.2.choose_spec.2⟩
    · rw [if_neg hin] at hk
      rcases ih _ k hk with hk2 | hk2
      · exact Or.inl hk2
      · exact Or.inr ⟨hk2.1, hk2.2.choose,
          List.mem_cons_of_mem kw hk2.2.choose_spec.1, hk2.2.choose_spec.2⟩

theorem llmPhase_mem (envPresent : Bool) (llm : Option (List LlmKw))
    (db_keywords : List DbKeyword) :
    ∀ k ∈ llmPhase envPresent llm db_keywords,
      1/2 < k.confidence ∧ ∃ d ∈ db_keywords, pyLower (nameOf d) = pyLower k.keyword := by
  intro k hk
  unfold llmPhase at hk
  split at hk
  · cases llm with
    | none => exact absurd hk (List.not_mem_nil k)
    | some kws => exact llmExtract_mem db_keywords kws k hk
  · exact absurd hk (List.not_mem_nil k)

theorem extractedAfterFallback_mem (envPresent : Bool) (llm : Option (List LlmKw))
    (db_keywords : List DbKeyword) (title content : String) :
    ∀ k ∈ extractedAfterFallback envPresent llm db_keywords title content,
      1/2 < k.confidence ∧ ∃ d ∈ db_keywords, pyLower (nameOf d) = pyLower k.keyword := by
  intro k hk
  unfold extractedAfterFallback at hk
  split at hk
  · rcases fallbackLoop_mem _ (db_keywords.take 20) [] k hk with hk2 | hk2
    · exact absurd hk2 (List.not_mem_nil k)
    · obtain ⟨hconf, d, hd, hkey⟩ := hk2
      refine ⟨by rw [hconf]; norm_num, d, List.take_subset 20 db_keywords hd, ?_⟩
      rw [hkey]
  · exact llmPhase_mem envPresent llm db_keywords k hk

end Mukoko.Keywords

namespace Mukoko

open Mukoko.Keywords

/-- C9, counterexample.  The LLM path only checks `confidence > 0.5` and
never clamps above: an LLM response rating the dictionary keyword
`"economy"` at confidence 2 is accepted as-is, so the returned record's
confidence is 2, outside `(0, 1]`. -/
theorem C9_counterexample :
    extract_keywords true (some [⟨some "economy", some 2⟩])
        [⟨some "Economy", none, some "biz"⟩] "t" (String.mk (List.replicate 60 'x'))
      = [{ keyword := "economy", confidence := 2, category := "biz" }] ∧
    ¬ ((2:ℚ) ≤ 1) := by
  constructor
  · norm_num +decide [extract_keywords, extractedAfterFallback, llmPhase, llmExtract,
      find_db_keyword, nameOf, pyLower]
  · norm_num

/-- C9, amended.  The extractor returns at most 8 records; every record's
confidence is strictly above 0.5 and its keyword exists case-insensitively
in the loaded dictionary (LLM-path records carry the LLM's confidence with
no upper bound enforced — only `> 0.5` is checked — and fallback records
carry exactly 0.7); when the LLM phase produced nothing, every returned
record is a fallback record with confidence exactly 0.7. -/
theorem C9_extract (envPresent : Bool) (llm : Option (List LlmKw))
    (db_keywords : List DbKeyword) (title content : String) :
    (extract_keywords envPresent llm db_keywords title content).length ≤ 8 ∧
    (∀ k ∈ extract_keywords envPresent llm db_keywords title content,
      1/2 < k.confidence ∧ ∃ d ∈ db_keywords, pyLower (nameOf d) = pyLower k.keyword) ∧
    ((llmPhase envPresent llm db_keywords).isEmpty = true →
      ∀ k ∈ extract_keywords envPresent llm db_keywords title content,
        k.confidence = 7/10) := by
  refine ⟨?_, ?_, ?_⟩
  · unfold extract_keywords
    split
    · simp
    · simpa using List.length_take_le 8 _
  · intro k hk
    unfold extract_keywords at hk
    split at hk
    · exact absurd hk (List.not_mem_nil k)
    · exact extractedAfterFallback_mem envPresent llm db_keywords title content k
        (List.take_subset 8 _ hk)
  · intro hemp k hk
    unfold extract_keywords at hk
    split at hk
    · exact absurd hk (List.not_mem_nil k)
    · have hk2 := List.take_subset 8 _ hk
      unfold extractedAfterFallback at hk2
      by_cases hdb : db_keywords.isEmpty = true
      · rw [if_neg (by simp [hdb])] at hk2
        rw [List.isEmpty_iff] at hemp
        rw [hemp] at hk2
        exact absurd hk2 (List.not_mem_nil k)
      · rw [if_pos (by simp [hemp, hdb])] at hk2
        rcases fallbackLoop_mem _ (db_keywords.take 20) [] k hk2 with hk3 | hk3
        · exact absurd hk3 (List.not_mem_nil k)
        · exact hk3.1

/-- C9, witness for the amended theorem at the counterexample inputs. -/
theorem C9_witness :
    (extract_keywords true (some [⟨some "economy", some 2⟩])
        [⟨some "Economy", none, some "biz"⟩] "t"
        (String.mk (List.replicate 60 'x'))).length ≤ 8 :=
  (C9_extract true (some [⟨some "economy", some 2⟩])
    [⟨some "Economy", none, some "biz"⟩] "t" (String.mk (List.replicate 60 'x'))).1

end Mukoko

namespace Mukoko.Trending

/-!
Embedding of `refresh_trending` and `get_trending` in
`src/processing/src/services/trending.py`.  The MongoDB aggregation
`_compute_trending` is a pure function `compute` of the scope for a fixed
article corpus; the KV store is an association list where `put` prepends
(later writes shadow earlier ones) and `get` takes the first match, and an
entry being present models being inside its 30-minute TTL.  JSON
serialisation round-trips, so cached values are stored as records. -/

/-- One trending topic row as returned by `_compute_trending`. -/
structure Topic where
  keyword : String
  article_count : Nat
  engagement_score : ℚ
  score : ℚ
deriving DecidableEq, Repr

/-- A JSON record cached in KV or returned by `get_trending`: the global
refresh result uses the `global`/`countries` keys, the per-country records
and the live path use `topics`. -/
structure TrendValue where
  topics : Option (List Topic) := none
  globalTopics : Option (List Topic) := none
  countries : Option (List (String × List Topic)) := none
  updated_at : String := ""
deriving DecidableEq, Repr

/-- The KV binding. -/
def KV : Type := List (String × TrendValue)

/-- Models `env.CACHE_STORAGE.put`. -/
def kvPut (kv : KV) (key : String) (v : TrendValue) : KV := (key, v) :: kv

/-- Models `env.CACHE_STORAGE.get`. -/
def kvGet (kv : KV) (key : String) : Option TrendValue :=
  (kv.find? (fun p => p.1 == key)).map (fun p => p.2)

/-- The per-country refresh loop scopes. -/
def PRIORITY_COUNTRIES : List String := ["ZW", "ZA", "KE", "NG", "GH", "TZ"]

/-- The `country_topics` dict: countries whose topic list is non-empty. -/
def countryTopics (compute : Option String → List Topic) : List (String × List Topic) :=
  PRIORITY_COUNTRIES.filterMap (fun c =>
    if (compute (some c)).isEmpty then none else some (c, compute (some c)))

/-- Translation of `refresh_trending`: compute the global and per-country
scopes, cache the full result under `trending:global` and each non-empty
country list under `trending:<CC>`, and return the result. -/
def refresh_trending (compute : Option String → List Topic) (now : String)
    (kv : KV) : TrendValue × KV :=
  ⟨{ topics := none
     globalTopics := some (compute none)
     countries := some (countryTopics compute)
     updated_at := now },
   (countryTopics compute).foldl
    (fun acc ct => kvPut acc ("trending:" ++ ct.1)
      { topics := some ct.2, updated_at := now })
    (kvPut kv "trending:global"
      { topics := none
        globalTopics := some (compute none)
        countries := some (countryTopics compute)
        updated_at := now })⟩

/-- Translation of `get_trending`: KV first, live computation on a miss. -/
def get_trending (compute : Option String → List Topic) (now : String)
    (kv : KV) (country_id : Option String) : TrendValue :=
  match kvGet kv ("trending:" ++ country_id.getD "global") with
  | some v => v
  | none => { topics := some (compute country_id), updated_at := now }

theorem trending_key_inj {c d : String} (h : "trending:" ++ c = "trending:" ++ d) :
    c = d := by
  have hd := congrArg String.data h
  simp only [String.data_append] at hd
  have h2 := List.append_cancel_left hd
  cases c
  cases d
  exact congrArg String.mk h2

/-- Lookup after the country-caching fold: the (unique) matching country
entry if there is one, the underlying store otherwise. -/
theorem kvGet_countryFold (now : String) (key : String) :
    ∀ (cts : List (String × List Topic)) (kv : KV),
      kvGet (cts.foldl (fun acc ct => kvPut acc ("trending:" ++ ct.1)
          { topics := some ct.2, updated_at := now }) kv) key
        = match cts.reverse.find? (fun ct => "trending:" ++ ct.1 == key) with
          | some ct => some { topics := some ct.2, updated_at := now }
          | none => kvGet kv key := by
  intro cts
  induction cts with
  | nil => intro kv; rfl
  | cons ct rest ih =>
    intro kv
    rw [List.foldl_cons, ih, List.reverse_cons, List.find?_append]
    cases hfind : rest.reverse.find? (fun p => "trending:" ++ p.1 == key) with
    | some p => simp [hfind]
    | none =>
      simp only [hfind, Option.none_or]
      cases hkey : (("trending:" ++ ct.1 : String) == key) with
      | true =>
        simp only [List.find?_cons, hkey]
        unfold kvGet kvPut
        simp [hkey]
      | false =>
        simp only [List.find?_cons, hkey]
        unfold kvGet kvPut
        simp [hkey]

theorem priority_ne_global : ∀ x ∈ PRIORITY_COUNTRIES, x ≠ "global" := by decide

theorem mem_countryTopics (compute : Option String → List Topic) :
    ∀ ct ∈ countryTopics compute,
      ct.1 ∈ PRIORITY_COUNTRIES ∧ ct.2 = compute (some ct.1) := by
  intro ct hct
  obtain ⟨c, hc, hsome⟩ := List.mem_filterMap.mp hct
  by_cases hemp : (compute (some c)).isEmpty = true
  · rw [if_pos hemp] at hsome
    exact Option.noConfusion hsome
  · rw [if_neg hemp] at hsome
    obtain rfl := Option.some.inj hsome
    exact ⟨hc, rfl⟩

end Mukoko.Trending

namespace Mukoko

open Mukoko.Trending

/-- The concrete corpus used by the C8 counterexample and witness: every
scope has one trending topic. -/
def c8comp : Option String → List Topic :=
  fun _ => [{ keyword := "kw", article_count := 1, engagement_score := 0, score := 1 }]

/-- C8, counterexample.  Right after a refresh (well inside the 30-minute
window), reading the global scope through the KV cache returns the full
refresh payload, whose topic list sits under the `global` key and whose
`topics` key is absent — while the live-computation path returns
`{topics, updated_at}` — so the cache-hit and live paths of `get_trending`
do not agree on the shape of the returned record for the global scope. -/
theorem C8_counterexample :
    (get_trending c8comp "t1" (refresh_trending c8comp "t0" []).2 none).topics = none ∧
    (get_trending c8comp "t1" [] none).topics = some (c8comp none) ∧
    c8comp none ≠ [] := by
  refine ⟨rfl, rfl, by simp [c8comp]⟩

/-- C8, amended.  Over an unchanged corpus and a freshly refreshed cache:
for every priority-country scope, the cache-hit path of `get_trending`
returns a record whose `topics` equal the freshly computed topic list for
that scope (on a miss — empty country list — the live path computes the
same list), matching the claimed equivalence; for the global scope the same
topic list is preserved but under the `global` key of the cached refresh
payload, whose `topics` key is absent, so the shapes differ. -/
theorem C8_trending (compute : Option String → List Topic) (t0 t1 : String) :
    (∀ c ∈ PRIORITY_COUNTRIES,
      (get_trending compute t1 (refresh_trending compute t0 []).2 (some c)).topics
        = some (compute (some c))) ∧
    (get_trending compute t1 (refresh_trending compute t0 []).2 none).globalTopics
      = some (compute none) ∧
    (get_trending compute t1 (refresh_trending compute t0 []).2 none).topics = none := by
  refine ⟨?_, ?_, ?_⟩
  · intro c hc
    unfold get_trending refresh_trending
    rw [show (some c).getD "global" = c from rfl]
    rw [kvGet_countryFold t0 ("trending:" ++ c) (countryTopics compute) _]
    cases hfind : (countryTopics compute).reverse.find?
        (fun ct => "trending:" ++ ct.1 == "trending:" ++ c) with
    | some ct =>
      have hp := List.find?_some hfind
      have hmem : ct ∈ countryTopics compute := by
        have := List.mem_of_find?_eq_some hfind
        exact (List.mem_reverse).mp this
      have hct := mem_countryTopics compute ct hmem
      have hceq : ct.1 = c := trending_key_inj (by simpa using hp)
      simp only []
      rw [hct.2, hceq]
    | none =>
      have hne : ¬ (("trending:global" : String) == "trending:" ++ c) = true := by
        intro hcon
        have hglob : c = "global" := (trending_key_inj (by simpa using hcon)).symm
        exact priority_ne_global c hc hglob
      simp only []
      unfold kvGet kvPut
      simp only [List.find?_cons, List.find?_nil]
      rw [Bool.eq_false_iff.mpr hne]
      rfl
  · unfold get_trending refresh_trending
    dsimp only
    rw [show ("trending:" ++ (none : Option String).getD "global" : String)
      = "trending:global" from rfl]
    rw [kvGet_countryFold t0 "trending:global" (countryTopics compute) _]
    have hnone : (countryTopics compute).reverse.find?
        (fun ct => "trending:" ++ ct.1 == "trending:global") = none := by
      rw [List.find?_eq_none]
      intro ct hct
      intro hcon
      have hmem := (List.mem_reverse).mp hct
      have h1 := (mem_countryTopics compute ct hmem).1
      have hceq : ct.1 = "global" := trending_key_inj
        (by simpa using (show ("trending:" ++ ct.1 : String) = "trending:" ++ "global"
          from by simpa using hcon))
      rw [hceq] at h1
      revert h1
      decide
    rw [hnone]
    rfl
  · unfold get_trending refresh_trending
    dsimp only
    rw [show ("trending:" ++ (none : Option String).getD "global" : String)
      = "trending:global" from rfl]
    rw [kvGet_countryFold t0 "trending:global" (countryTopics compute) _]
    have hnone : (countryTopics compute).reverse.find?
        (fun ct => "trending:" ++ ct.1 == "trending:global") = none := by
      rw [List.find?_eq_none]
      intro ct hct
      intro hcon
      have hmem := (List.mem_reverse).mp hct
      have h1 := (mem_countryTopics compute ct hmem).1
      have hceq : ct.1 = "global" := trending_key_inj
        (by simpa using (show ("trending:" ++ ct.1 : String) = "trending:" ++ "global"
          from by simpa using hcon))
      rw [hceq] at h1
      revert h1
      decide
    rw [hnone]
    rfl

/-- C8, witness for the amended theorem at the concrete corpus and the
`"ZW"` scope. -/
theorem C8_witness :
    (get_trending c8comp "t1" (refresh_trending c8comp "t0" []).2 (some "ZW")).topics
      = some (c8comp (some "ZW")) :=
  (C8_trending c8comp "t0" "t1").1 "ZW" (by decide)

end Mukoko
